import Mathlib

/-!
Verification development for the cafe-rio-nutrition catalog data service.

The repository is a nutrition-data management application backed by a document
store.  This file gives a shallow embedding of its data model and of the
operations the specification talks about:

* the fixed nutrition / allergen records and the tolerant extraction helpers
  (src/src/services/firestore.ts, src/src/services/allergens.ts);
* the normalized catalog service: base items, category assignment rows,
  category CRUD, bulk import with fingerprint de-duplication, and the one-time
  legacy migration (src/src/services/firestore.ts, first document);
* the legacy denormalized service and the REST handlers with their
  category-count maintenance and authentication gate
  (src/src/services/firestore.ts second document, src/functions/index.js);
* the admin import page pipeline (src/unnamed/part_000);
* the slug generator.

Collections of the document store are modelled as association lists kept in
insertion order; auto-generated document ids are modelled by a counter.
Server timestamps are modelled by a logical clock when a claim mentions them
and otherwise omitted.  All definitions are executable.
-/

set_option linter.unusedVariables false

/-- Keys of the fixed 15-field numeric nutrition record
(src/src/types/index.ts, interface NutritionData). -/
inductive NutriKey where
  | calories | caloriesFromFat | totalFat | saturatedFat | transFat
  | polyunsaturatedFat | monounsaturatedFat | cholesterol | sodium | potassium
  | totalCarbs | dietaryFiber | totalSugars | addedSugars | protein
  deriving DecidableEq, Fintype

/-- Keys of the fixed 12-flag allergen record
(src/src/types/index.ts, interface AllergenFlags). -/
inductive AllergKey where
  | egg | fish | milk | peanuts | sesame | shellfish
  | soy | treeNuts | wheat | gluten | vegan | vegetarian
  deriving DecidableEq, Fintype

/-- A fully populated nutrition record: every one of the 15 keys has a value.
The TS interface with 15 named numeric fields is represented as a total
function from the key enumeration. -/
abbrev NutritionData := NutriKey → Int

/-- A fully populated allergen record (12 boolean flags). -/
abbrev AllergenFlags := AllergKey → Bool

/-- Template of all-zero nutrition values (src/src/types/index.ts,
emptyNutrition). -/
def emptyNutrition : NutritionData := fun _ => 0

/-- Template of all-false allergen flags (src/src/types/index.ts,
emptyAllergenFlags). -/
def emptyAllergenFlags : AllergenFlags := fun _ => false

/-- The JSON serialization of a full nutrition record.  JSON.stringify on the
merged record emits the 15 numeric values in the fixed key order of
emptyNutrition, so the serialization is determined by (and determines) the
list of the 15 values in declaration order.  Fingerprints built from it are
modelled with this value list in place of the JSON string. -/
def serializeNutrition (n : NutritionData) : List Int :=
  [n .calories, n .caloriesFromFat, n .totalFat, n .saturatedFat, n .transFat,
   n .polyunsaturatedFat, n .monounsaturatedFat, n .cholesterol, n .sodium,
   n .potassium, n .totalCarbs, n .dietaryFiber, n .totalSugars,
   n .addedSugars, n .protein]

/-- JavaScript toLowerCase, modelled characterwise (String.mk of the
lowercased character list; extensionally the same as String.toLower, but
reducible by evaluation). -/
def strLower (s : String) : String := String.mk (s.toList.map Char.toLower)

/-- A partially populated nutrition record as stored in a document: each key
may be present with a value or missing. -/
abbrev PartialNutrition := NutriKey → Option Int

/-- A partially populated allergen record as stored in a document. -/
abbrev PartialAllergens := AllergKey → Option Bool

/-- A dynamically typed field value of a stored document (the store is
schemaless, so a field such as isActive can hold a boolean, a string or a
number). -/
inductive FsVal where
  | b (v : Bool)
  | s (v : String)
  | n (v : Int)
  deriving DecidableEq

/-- A stored item document.  It can carry the nutrition record either as a
nested object (field nutrition) or as flat top-level numeric fields
(grouped here in flatNutrition), and likewise for allergens; any subset of
fields may be missing. -/
structure ItemDocR where
  name : Option String := none
  categoryId : Option String := none
  categoryName : Option String := none
  isActive : Option FsVal := none
  nutrition : Option PartialNutrition := none
  flatNutrition : PartialNutrition := fun _ => none
  allergens : Option PartialAllergens := none
  flatAllergens : PartialAllergens := fun _ => none
  servingSize : Option String := none

/-- Extraction of nutrition data from the flat document structure
(src/src/services/firestore.ts lines 37-53): each field is read with a
JavaScript default, (data.field as number) or 0. -/
def extractNutrition (d : ItemDocR) : NutritionData :=
  fun k => (d.flatNutrition k).getD 0

/-- Extraction of allergen data from flat or nested document structure
(src/src/services/firestore.ts lines 56-75): if a nested allergens object is
present it is merged over the all-false template, otherwise the 12 flat
fields are read with default false. -/
def extractAllergens (d : ItemDocR) : AllergenFlags :=
  match d.allergens with
  | some a => fun k => (a k).getD false
  | none => fun k => (d.flatAllergens k).getD false

/-- The nutrition read used by every document-to-model conversion
(hasNestedNutrition check followed by merge over emptyNutrition, or flat
extraction; src/src/services/firestore.ts lines 79-88 and 205-213). -/
def readNutrition (d : ItemDocR) : NutritionData :=
  match d.nutrition with
  | some nested => fun k => (nested k).getD 0
  | none => extractNutrition d

/-- The unified item view presented to all callers (src/src/types/index.ts,
interface MenuItem; timestamps omitted). -/
structure MenuItemView where
  id : Nat
  name : String
  categoryId : String
  categoryName : String
  isActive : Bool
  nutrition : NutritionData
  allergens : AllergenFlags
  servingSize : Option String

/-- Conversion of a legacy flat item document to the MenuItem view
(src/src/services/firestore.ts lines 78-94, legacyDocToMenuItem; the second
document of that file defines the identical docToMenuItem). -/
def legacyDocToMenuItem (docId : Nat) (d : ItemDocR) : MenuItemView where
  id := docId
  name := d.name.getD ""
  categoryId := d.categoryId.getD ""
  categoryName := d.categoryName.getD ""
  isActive := d.isActive != some (FsVal.b false)
  nutrition := readNutrition d
  allergens := extractAllergens d
  servingSize := d.servingSize

/-- Field lookup actually consulted by the nutrition read: the nested object
when one is present, the flat top-level field otherwise. -/
def nutritionStored (d : ItemDocR) (k : NutriKey) : Option Int :=
  match d.nutrition with
  | some nested => nested k
  | none => d.flatNutrition k

/-- Field lookup actually consulted by the allergen extraction. -/
def allergenStored (d : ItemDocR) (k : AllergKey) : Option Bool :=
  match d.allergens with
  | some a => a k
  | none => d.flatAllergens k

/-! Allergen service (src/src/services/allergens.ts). -/

namespace Allerg

/-- The allergen item view (src/src/types/index.ts, interface AllergenItem;
timestamps omitted). -/
structure AllergenItemView where
  id : Nat
  name : String
  categoryId : String
  categoryName : String
  isActive : Bool
  allergens : AllergenFlags

/-- Extraction of allergen flags from flat or nested document structure
(src/src/services/allergens.ts lines 35-55); textually the same algorithm as
the firestore.ts helper. -/
def extractAllergens (d : ItemDocR) : AllergenFlags :=
  match d.allergens with
  | some a => fun k => (a k).getD false
  | none => fun k => (d.flatAllergens k).getD false

/-- Conversion of a stored allergen item document to AllergenItem
(src/src/services/allergens.ts lines 58-67, docToAllergenItem). -/
def docToAllergenItem (docId : Nat) (d : ItemDocR) : AllergenItemView where
  id := docId
  name := d.name.getD ""
  categoryId := d.categoryId.getD ""
  categoryName := d.categoryName.getD ""
  isActive := d.isActive != some (FsVal.b false)
  allergens := extractAllergens d

end Allerg

/-! Slug generation (src/src/services/firestore.ts lines 587-592; the second
document repeats the same function at lines 899-904). -/

/-- Characters the slug regex class [a-z0-9] keeps. -/
def isSlugChar (c : Char) : Bool :=
  (decide ('a' ≤ c) && decide (c ≤ 'z')) || (decide ('0' ≤ c) && decide (c ≤ '9'))

/-- One pass of the global replace of /[^a-z0-9]+/ by a hyphen: the boolean
argument records whether the previous character belonged to a run that was
already replaced, so each maximal run of non-slug characters contributes one
hyphen. -/
def collapseGo (inRun : Bool) : List Char → List Char
  | [] => []
  | c :: cs =>
    if isSlugChar c then c :: collapseGo false cs
    else if inRun then collapseGo true cs
    else '-' :: collapseGo true cs

/-- Removal of a single leading hyphen (the ^- alternative of the final
regex /^-|-$/g). -/
def dropLeadHyphen : List Char → List Char
  | [] => []
  | c :: cs => if c = '-' then cs else c :: cs

/-- Removal of a single trailing hyphen (the -$ alternative of the final
regex). -/
def dropTrailHyphen (l : List Char) : List Char :=
  (dropLeadHyphen l.reverse).reverse

/-- Slug generation: lowercase, replace every maximal run of characters
outside [a-z0-9] by one hyphen, then strip one leading and one trailing
hyphen (src/src/services/firestore.ts, generateSlug). -/
def generateSlug (name : String) : String :=
  String.mk (dropTrailHyphen (dropLeadHyphen
    (collapseGo false (name.toList.map Char.toLower))))

/-- Specification-side slug: identical collapse of maximal runs, but with all
boundary hyphens stripped (the specification says boundary hyphens are
stripped, with no bound on how many). -/
def specSlug (name : String) : String :=
  String.mk ((((name.toList.map Char.toLower) |> collapseGo false)
    |>.dropWhile (fun c => c = '-')) |>.reverse.dropWhile (fun c => c = '-')
    |>.reverse)

/-! Normalized catalog service (src/src/services/firestore.ts, first
document): base items, assignment rows, category CRUD, bulk import with
fingerprint de-duplication, one-time migration. -/

namespace Norm

/-- JavaScript coercion (x or null) applied to an optional string field: an
empty string is falsy and becomes null. -/
def jsOrNullStr : Option String → Option String
  | some str => if str = "" then none else some str
  | none => none

/-- A base item document of the normalized schema.  Every write path of the
service (createItem, bulkCreateItems, migration) stores the full merged
nutrition and allergen records, so the stored record is modelled with total
data. -/
structure BaseRec where
  name : String
  isActive : Bool
  nutrition : NutritionData
  allergens : AllergenFlags
  servingSize : Option String
  createdAt : Nat
  updatedAt : Nat

/-- An item-category assignment row (collection item_categories). -/
structure AssignRec where
  itemId : Nat
  categoryId : String

/-- A category document (collection categories). -/
structure CatRec where
  name : String
  slug : String
  description : Option String := none
  displayOrder : Int
  isActive : Bool
  itemCount : Int
  createdAt : Nat := 0
  updatedAt : Nat := 0

/-- The normalized store.  Collections are association lists in insertion
order; nextId generates fresh document ids; time is the logical clock backing
serverTimestamp. -/
structure NStore where
  categories : List (String × CatRec) := []
  baseItems : List (Nat × BaseRec) := []
  assignments : List (Nat × AssignRec) := []
  legacyItems : List (Nat × ItemDocR) := []
  nextId : Nat := 0
  time : Nat := 0

/-- Lookup of a document by generated id. -/
def lookupDoc {α : Type} (l : List (Nat × α)) (id : Nat) : Option α :=
  (l.find? (fun p => p.1 == id)).map (fun p => p.2)

/-- Lookup of a category document by id. -/
def lookupCat (l : List (String × CatRec)) (cid : String) : Option CatRec :=
  (l.find? (fun p => p.1 == cid)).map (fun p => p.2)

/-- Name of a category as resolved by getItems (categoryMap.get or empty
string). -/
def catNameOf (cats : List (String × CatRec)) (cid : String) : String :=
  match cats.find? (fun c => c.1 == cid) with
  | some c => c.2.name
  | none => ""

/-- Form data for creating or updating a menu item (src/src/types/index.ts,
MenuItemFormData). -/
structure MenuItemFormData where
  name : String
  categoryId : String
  categoryName : String
  isActive : Bool
  nutrition : NutritionData
  allergens : Option AllergenFlags := none
  servingSize : Option String := none

/-- The item count reported for a category by getCategory
(src/src/services/firestore.ts lines 151-167): the number of assignment rows
whose categoryId matches. -/
def categoryItemCount (s : NStore) (cid : String) : Nat :=
  (s.assignments.filter (fun p => p.2.categoryId == cid)).length

/-- Creation of an item (src/src/services/firestore.ts lines 354-378): one
write batch sets the base item document and its assignment row; no category
document is written. -/
def createItem (s : NStore) (data : MenuItemFormData) : Nat × NStore :=
  let baseId := s.nextId
  let base : BaseRec :=
    { name := data.name
      isActive := data.isActive != false
      nutrition := data.nutrition
      allergens := data.allergens.getD emptyAllergenFlags
      servingSize := jsOrNullStr data.servingSize
      createdAt := s.time
      updatedAt := s.time }
  let s1 : NStore :=
    { s with baseItems := s.baseItems ++ [(baseId, base)], nextId := s.nextId + 1 }
  let s2 : NStore :=
    { s1 with
      assignments := s1.assignments ++ [(s1.nextId, ⟨baseId, data.categoryId⟩)]
      nextId := s1.nextId + 1 }
  (baseId, s2)

/-- Deletion of a category (src/src/services/firestore.ts lines 187-195):
if any assignment row references the category the call throws (first
component some message) and nothing is written; otherwise the category
document is deleted. -/
def deleteCategory (s : NStore) (cid : String) : Option String × NStore :=
  if 0 < (s.assignments.filter (fun p => p.2.categoryId == cid)).length then
    (some "Cannot delete category with existing items. Remove item assignments first.", s)
  else
    (none, { s with categories := s.categories.filter (fun p => !(p.1 == cid)) })

/-- Partial update payload for a category (Partial of CategoryFormData). -/
structure CategoryUpd where
  name : Option String := none
  slug : Option String := none
  description : Option String := none
  displayOrder : Option Int := none
  isActive : Option Bool := none

/-- Merge of an update payload into a stored category document: exactly the
present keys are overwritten, plus the server-set updatedAt. -/
def applyCatUpd (c : CatRec) (u : CategoryUpd) (now : Nat) : CatRec :=
  { name := u.name.getD c.name
    slug := u.slug.getD c.slug
    description := match u.description with
      | some dsc => some dsc
      | none => c.description
    displayOrder := u.displayOrder.getD c.displayOrder
    isActive := u.isActive.getD c.isActive
    itemCount := c.itemCount
    createdAt := c.createdAt
    updatedAt := now }

/-- Update of a category (src/src/services/firestore.ts lines 179-185):
updateDoc with the spread payload plus updatedAt; fails (none) when the
document does not exist. -/
def updateCategory (s : NStore) (cid : String) (u : CategoryUpd) :
    Option NStore :=
  match lookupCat s.categories cid with
  | none => none
  | some _ => some
      { s with categories := s.categories.map fun p =>
          if p.1 == cid then (p.1, applyCatUpd p.2 u s.time) else p }

/-- Partial update payload for an item (Partial of MenuItemFormData). -/
structure ItemUpd where
  name : Option String := none
  isActive : Option Bool := none
  nutrition : Option NutritionData := none
  allergens : Option AllergenFlags := none
  servingSize : Option String := none
  categoryId : Option String := none

/-- Merge of the keys collected in the updates object of updateItem
(src/src/services/firestore.ts lines 387-394) into a stored base item. -/
def applyItemUpd (b : BaseRec) (u : ItemUpd) (now : Nat) : BaseRec :=
  { name := u.name.getD b.name
    isActive := u.isActive.getD b.isActive
    nutrition := u.nutrition.getD b.nutrition
    allergens := u.allergens.getD b.allergens
    servingSize := match u.servingSize with
      | some v => some v
      | none => b.servingSize
    createdAt := b.createdAt
    updatedAt := now }

/-- Update of an item (src/src/services/firestore.ts lines 380-424).  Only
keys present in the payload are written.  When the payload carries a
categoryId different from the currently assigned one, a single batch updates
the base document, deletes the matched assignment row and creates the new
one; otherwise a plain update of the base document is performed.  Fails
(none) when the base document does not exist, in which case nothing is
written. -/
def updateItem (s : NStore) (id : Nat) (u : ItemUpd) (fromCat : Option String) :
    Option NStore :=
  match lookupDoc s.baseItems id with
  | none => none
  | some b =>
    let updatedBases := s.baseItems.map fun p =>
      if p.1 == id then (p.1, applyItemUpd b u s.time) else p
    match u.categoryId with
    | some cid =>
      let snap := s.assignments.filter (fun p => p.2.itemId == id)
      let existing : Option (Nat × AssignRec) := match fromCat with
        | some t => snap.find? (fun p => p.2.categoryId == t)
        | none => snap.head?
      let oldCategoryId := existing.map (fun p => p.2.categoryId)
      if oldCategoryId = some cid then
        some { s with baseItems := updatedBases }
      else
        let afterDel := match existing with
          | some e => s.assignments.filter (fun p => !(p.1 == e.1))
          | none => s.assignments
        some { s with
          baseItems := updatedBases
          assignments := afterDel ++ [(s.nextId, ⟨id, cid⟩)]
          nextId := s.nextId + 1 }
    | none => some { s with baseItems := updatedBases }

/-- Deletion of an item (src/src/services/firestore.ts lines 446-457): one
batch deletes the base document and every assignment row of the item. -/
def deleteItem (s : NStore) (id : Nat) : NStore :=
  { s with
    baseItems := s.baseItems.filter (fun p => !(p.1 == id))
    assignments := s.assignments.filter (fun p => !(p.2.itemId == id)) }

/-- The import fingerprint of bulkCreateItems
(src/src/services/firestore.ts line 471): lowercased name plus the JSON
serialization of the nutrition payload (modelled by the ordered value list;
the two parts determine the concatenated key string because the serialized
part contains no separator character). -/
def bulkKey (it : MenuItemFormData) : String × List Int :=
  (strLower it.name, serializeNutrition it.nutrition)

/-- One loop iteration of bulkCreateItems (lines 470-504): a fingerprint hit
only appends an assignment row for the current category reusing the mapped
base id; a miss creates the base item, records the fingerprint and appends
the assignment row.  The accumulator carries the store, the seen map and the
returned ids. -/
def bulkStep (acc : NStore × List ((String × List Int) × Nat) × List Nat)
    (item : MenuItemFormData) :
    NStore × List ((String × List Int) × Nat) × List Nat :=
  let s := acc.1
  let seen := acc.2.1
  let ids := acc.2.2
  let key := bulkKey item
  match seen.find? (fun p => p.1 == key) with
  | some p =>
    ({ s with
        assignments := s.assignments ++ [(s.nextId, ⟨p.2, item.categoryId⟩)]
        nextId := s.nextId + 1 },
     seen, ids)
  | none =>
    let baseId := s.nextId
    let base : BaseRec :=
      { name := item.name
        isActive := item.isActive != false
        nutrition := item.nutrition
        allergens := item.allergens.getD emptyAllergenFlags
        servingSize := jsOrNullStr item.servingSize
        createdAt := s.time
        updatedAt := s.time }
    let s1 : NStore :=
      { s with baseItems := s.baseItems ++ [(baseId, base)], nextId := s.nextId + 1 }
    let s2 : NStore :=
      { s1 with
        assignments := s1.assignments ++ [(s1.nextId, ⟨baseId, item.categoryId⟩)]
        nextId := s1.nextId + 1 }
    (s2, (key, baseId) :: seen, ids ++ [baseId])

/-- The chunked write loop of bulkCreateItems (batchSize 400, lines
465-507): each chunk is committed as one batch, while the seen map and the
id list persist across chunks.  The Nat argument is fuel instantiated with
the item count (an upper bound on the number of chunks, since every chunk
consumes at least one item); it only makes the recursion structural and
never runs out. -/
def bulkLoop : Nat → List MenuItemFormData → NStore →
    List ((String × List Int) × Nat) → List Nat → NStore × List Nat
  | _, [], s, _, ids => (s, ids)
  | 0, _ :: _, s, _, ids => (s, ids)
  | Nat.succ fuel, it :: its, s, seen, ids =>
    let r := ((it :: its).take 400).foldl bulkStep (s, seen, ids)
    bulkLoop fuel ((it :: its).drop 400) r.1 r.2.1 r.2.2

/-- Bulk creation of items with fingerprint de-duplication
(src/src/services/firestore.ts lines 461-510). -/
def bulkCreateItems (s : NStore) (items : List MenuItemFormData) :
    NStore × List Nat :=
  bulkLoop items.length items s [] []

end Norm

namespace Norm

/-- A legacy items query ordered by name (orderBy name asc): documents
missing the ordering field are excluded by the store, the rest are sorted by
name (ties keep document order, the id order of the model). -/
def insertByName (p : Nat × ItemDocR) :
    List (Nat × ItemDocR) → List (Nat × ItemDocR)
  | [] => [p]
  | q :: qs =>
    if (p.2.name.getD "") < (q.2.name.getD "") then p :: q :: qs
    else q :: insertByName p qs

/-- Stable insertion sort by name (ties keep document order). -/
def sortByName (docs : List (Nat × ItemDocR)) : List (Nat × ItemDocR) :=
  docs.foldl (fun acc p => insertByName p acc) []

/-- A legacy items query ordered by name continued: filter then sort. -/
def legacyQueryByName (docs : List (Nat × ItemDocR)) : List (Nat × ItemDocR) :=
  sortByName (docs.filter (fun p => p.2.name.isSome))

/-- View of a base item in a category context
(src/src/services/firestore.ts lines 97-112, baseItemToMenuItem). -/
def baseItemToMenuItem (id : Nat) (b : BaseRec) (categoryId : String)
    (categoryName : String) : MenuItemView :=
  { id := id
    name := b.name
    categoryId := categoryId
    categoryName := categoryName
    isActive := b.isActive
    nutrition := b.nutrition
    allergens := b.allergens
    servingSize := b.servingSize }

/-- The normalized branch of getItems (lines 237-278): every base item is
paired with its first assignment row (or Uncategorized when it has none) and
the category name resolved through the categories collection. -/
def buildViews (cats : List (String × CatRec)) (assigns : List (Nat × AssignRec))
    (bases : List (Nat × BaseRec)) : List MenuItemView :=
  bases.map fun p =>
    match assigns.find? (fun a => a.2.itemId == p.1) with
    | some a => baseItemToMenuItem p.1 p.2 a.2.categoryId (catNameOf cats a.2.categoryId)
    | none => baseItemToMenuItem p.1 p.2 "" "Uncategorized"

/-- Listing of all items (src/src/services/firestore.ts lines 223-281): the
normalized path whenever the base item collection is non-empty, otherwise
the legacy flat collection ordered by name. -/
def getItems (s : NStore) : List MenuItemView :=
  if s.baseItems.isEmpty then
    (legacyQueryByName s.legacyItems).map (fun p => legacyDocToMenuItem p.1 p.2)
  else
    buildViews s.categories s.assignments s.baseItems

/-- The base item written by the migration for a legacy document
(src/src/services/firestore.ts lines 543-557). -/
def migBase (d : ItemDocR) (now : Nat) : BaseRec :=
  { name := d.name.getD ""
    isActive := d.isActive != some (FsVal.b false)
    nutrition := readNutrition d
    allergens := extractAllergens d
    servingSize := jsOrNullStr d.servingSize
    createdAt := now
    updatedAt := now }

/-- The de-duplication fingerprint of the migration (line 540): lowercased
name plus the serialized merged nutrition record. -/
def migKey (d : ItemDocR) : String × List Int :=
  (strLower (d.name.getD ""), serializeNutrition (readNutrition d))

/-- The migration loop (src/src/services/firestore.ts lines 528-570): for
each legacy document in name order, create a base item unless its
fingerprint was already seen, then always create an assignment row pointing
at the (new or reused) base id.  The seen map persists across the 400-write
commit chunks, which only set commit boundaries. -/
def migrateLoop : List (Nat × ItemDocR) → List ((String × List Int) × Nat) →
    NStore → NStore
  | [], _, s => s
  | (_, d) :: ds, seen, s =>
    match seen.find? (fun p => p.1 == migKey d) with
    | some p =>
      migrateLoop ds seen
        { s with
          assignments := s.assignments ++ [(s.nextId, ⟨p.2, d.categoryId.getD ""⟩)]
          nextId := s.nextId + 1 }
    | none =>
      let baseId := s.nextId
      let s1 : NStore :=
        { s with
          baseItems := s.baseItems ++ [(baseId, migBase d s.time)]
          nextId := s.nextId + 1 }
      migrateLoop ds ((migKey d, baseId) :: seen)
        { s1 with
          assignments := s1.assignments ++ [(s1.nextId, ⟨baseId, d.categoryId.getD ""⟩)]
          nextId := s1.nextId + 1 }

/-- One-time migration from the legacy flat collection to base items plus
assignment rows (src/src/services/firestore.ts lines 514-573). -/
def migrateFromLegacyItems (s : NStore) : NStore :=
  migrateLoop (legacyQueryByName s.legacyItems) [] s

end Norm

namespace Norm

/-- Form data for creating a category (src/src/types/index.ts,
CategoryFormData). -/
structure CategoryFormData where
  name : String
  slug : String
  description : Option String := none
  displayOrder : Int
  isActive : Bool

/-- Creation of a category (src/src/services/firestore.ts lines 169-177):
addDoc with the form data, itemCount 0 and server timestamps; returns the
generated id. -/
def createCategory (s : NStore) (d : CategoryFormData) : String × NStore :=
  let cid := toString s.nextId
  (cid,
   { s with
     categories := s.categories ++
       [(cid,
         { name := d.name
           slug := d.slug
           description := d.description
           displayOrder := d.displayOrder
           isActive := d.isActive
           itemCount := 0
           createdAt := s.time
           updatedAt := s.time })]
     nextId := s.nextId + 1 })

end Norm

/-! Legacy denormalized service (src/src/services/firestore.ts, second
document) and REST API handlers (src/functions/index.js).  The items
collection holds schemaless documents (ItemDocR); category documents carry
the maintained itemCount.  Each mutating operation is modelled as the list
of writes of its committed batch together with the resulting store, making
the batch boundary explicit; timestamps are omitted in this model. -/

namespace Fns

/-- A category document of the denormalized schema with its maintained item
count. -/
structure LCat where
  name : String := ""
  itemCount : Int

/-- A record of the apiKeys collection consulted by the authentication
middleware (src/functions/index.js lines 28-50). -/
structure ApiKeyRec where
  key : String
  isActive : Bool
  expiresAt : Option Nat := none

/-- A decoded identity token as returned by the identity provider. -/
structure Token where
  uid : String
  email : String

/-- The store of the legacy schema: categories with counts, schemaless item
documents, the users collection (uid to role) and the apiKeys collection;
now is the current time used for key expiry. -/
structure LStore where
  categories : List (String × LCat) := []
  items : List (Nat × ItemDocR) := []
  users : List (String × String) := []
  apiKeys : List ApiKeyRec := []
  nextId : Nat := 0
  now : Nat := 0

/-- Partial update payload of the legacy updateItem / PUT handlers: only
present keys are applied. -/
structure ItemUpdL where
  name : Option String := none
  categoryId : Option String := none
  categoryName : Option String := none
  isActive : Option Bool := none
  nutrition : Option NutritionData := none
  servingSize : Option String := none

/-- Merge of present payload keys into a stored item document. -/
def applyItemUpdL (d : ItemDocR) (u : ItemUpdL) : ItemDocR :=
  { d with
    name := match u.name with | some v => some v | none => d.name
    categoryId := match u.categoryId with | some v => some v | none => d.categoryId
    categoryName := match u.categoryName with | some v => some v | none => d.categoryName
    isActive := match u.isActive with | some v => some (FsVal.b v) | none => d.isActive
    nutrition := match u.nutrition with
      | some n => some (fun k => some (n k))
      | none => d.nutrition
    servingSize := match u.servingSize with | some v => some v | none => d.servingSize }

/-- A single document write of a committed batch. -/
inductive LWrite where
  | setItem (id : Nat) (doc : ItemDocR)
  | updItem (id : Nat) (u : ItemUpdL)
  | delItem (id : Nat)
  | updCatCount (cid : String) (delta : Int)

/-- Whether a write touches a category document (the itemCount
maintenance). -/
def LWrite.isCountWrite : LWrite → Bool
  | .updCatCount _ _ => true
  | _ => false

/-- Application of one write.  A real batch.update aborts the whole batch
when its target is missing; the theorems below always hypothesize that the
updated documents exist, so the model applies updates to matching entries. -/
def applyWrite (s : LStore) : LWrite → LStore
  | .setItem id doc => { s with items := s.items ++ [(id, doc)] }
  | .updItem id u =>
    { s with items := s.items.map fun p =>
        if p.1 == id then (p.1, applyItemUpdL p.2 u) else p }
  | .delItem id => { s with items := s.items.filter (fun p => !(p.1 == id)) }
  | .updCatCount cid delta =>
    { s with categories := s.categories.map fun p =>
        if p.1 == cid then (p.1, { p.2 with itemCount := p.2.itemCount + delta })
        else p }

/-- Atomic commit of a batch of writes. -/
def commit (s : LStore) (b : List LWrite) : LStore := b.foldl applyWrite s

/-- The item document written by the legacy createItem (spread of the form
data plus timestamps). -/
def mkItemDoc (d : Norm.MenuItemFormData) : ItemDocR :=
  { name := some d.name
    categoryId := some d.categoryId
    categoryName := some d.categoryName
    isActive := some (FsVal.b d.isActive)
    nutrition := some (fun k => some (d.nutrition k))
    allergens := d.allergens.map (fun a => fun k => some (a k))
    servingSize := d.servingSize }

/-- Creation of an item in the legacy schema (src/src/services/firestore.ts
lines 762-782): one batch sets the item document and increments the
category itemCount. -/
def createItem (s : LStore) (d : Norm.MenuItemFormData) :
    List LWrite × (Nat × LStore) :=
  let b : List LWrite := [.setItem s.nextId (mkItemDoc d),
                          .updCatCount d.categoryId 1]
  (b, (s.nextId, commit { s with nextId := s.nextId + 1 } b))

/-- Deletion of an item in the legacy schema (lines 835-853): fails when the
item does not exist, otherwise one batch deletes the item and decrements its
category itemCount. -/
def deleteItem (s : LStore) (id : Nat) : Except String (List LWrite × LStore) :=
  match Norm.lookupDoc s.items id with
  | none => .error "Item not found"
  | some d =>
    let b : List LWrite := [.delItem id, .updCatCount (d.categoryId.getD "") (-1)]
    .ok (b, commit s b)

/-- Update of an item in the legacy schema (lines 784-822): when the payload
carries a truthy categoryId different from the stored one, a single batch
updates the item, decrements the old category count and increments the new
one; otherwise a plain single-document update (which fails when the item is
missing). -/
def updateItem (s : LStore) (id : Nat) (u : ItemUpdL) :
    Except String (List LWrite × LStore) :=
  let plain : Except String (List LWrite × LStore) :=
    match Norm.lookupDoc s.items id with
    | none => .error "No document to update"
    | some _ =>
      let b : List LWrite := [.updItem id u]
      .ok (b, commit s b)
  match u.categoryId with
  | some cid =>
    if cid = "" then plain
    else
      match Norm.lookupDoc s.items id with
      | some d =>
        if (d.categoryId.getD "") = cid then plain
        else
          let b : List LWrite := [.updItem id u,
                                  .updCatCount (d.categoryId.getD "") (-1),
                                  .updCatCount cid 1]
          .ok (b, commit s b)
      | none => plain
  | none => plain

/-- Deletion of a category in the legacy service (lines 727-735): blocked
with an error and no writes when getItemsByCategory (a categoryId filter
ordered by name, which excludes unnamed documents) finds any item. -/
def deleteCategory (s : LStore) (cid : String) : Option String × LStore :=
  if 0 < (s.items.filter
      (fun p => p.2.categoryId == some cid && p.2.name.isSome)).length then
    (some "Cannot delete category with existing items. Delete or move items first.", s)
  else
    (none, { s with categories := s.categories.filter (fun p => !(p.1 == cid)) })

/-- An HTTP response of the REST layer. -/
structure Resp where
  status : Nat
  success : Bool
  error : Option String := none
  message : Option String := none

/-- The DELETE /categories/:id handler (src/functions/index.js lines
197-218): 400 and no writes when any item references the category,
otherwise the category document is deleted. -/
def deleteCategoryHandler (s : LStore) (cid : String) : Resp × LStore :=
  if 0 < (s.items.filter (fun p => p.2.categoryId == some cid)).length then
    ({ status := 400, success := false,
       error := some "Cannot delete category with existing items" }, s)
  else
    ({ status := 200, success := true, message := some "Category deleted" },
     { s with categories := s.categories.filter (fun p => !(p.1 == cid)) })

/-- An incoming request: only the two credential headers matter to the
authentication gate. -/
structure Request where
  xApiKey : Option String := none
  authorization : Option String := none

/-- The authenticated principal attached to the request. -/
inductive Principal where
  | viaKey
  | viaUser (uid : String) (email : String)

/-- The authentication middleware (src/functions/index.js lines 26-76): an
active, unexpired API key is accepted outright; otherwise a Bearer token is
verified and its email must end in the allowed domain (403 on wrong domain);
any remaining case is 401. -/
def authenticate (s : LStore) (verify : String → Option Token)
    (req : Request) : Except Resp Principal :=
  let unauthorized : Resp :=
    { status := 401, success := false, error := some "Unauthorized" }
  let tokenPath : Except Resp Principal :=
    match req.authorization with
    | some h =>
      if h.startsWith "Bearer " then
        match verify (h.drop 7) with
        | some tok =>
          if tok.email != "" && tok.email.endsWith "@caferio.com" then
            .ok (.viaUser tok.uid tok.email)
          else
            .error { status := 403, success := false,
                     error := some "Access restricted to @caferio.com accounts only" }
        | none => .error unauthorized
      else .error unauthorized
    | none => .error unauthorized
  match req.xApiKey with
  | some k =>
    match s.apiKeys.find? (fun r => r.key == k && r.isActive) with
    | some r =>
      match r.expiresAt with
      | some t => if s.now > t then tokenPath else .ok .viaKey
      | none => .ok .viaKey
    | none => tokenPath
  | none => tokenPath

/-- The admin check (src/functions/index.js lines 81-100): API keys are
trusted unconditionally; a user principal must have role admin in the users
collection. -/
def requireAdmin (s : LStore) (p : Principal) : Option Resp :=
  match p with
  | .viaKey => none
  | .viaUser uid _ =>
    match s.users.find? (fun q => q.1 == uid) with
    | some q =>
      if q.2 = "admin" then none
      else some { status := 403, success := false,
                  error := some "Admin access required" }
    | none => some { status := 403, success := false,
                     error := some "Admin access required" }

/-- The JSON body of POST /items. -/
structure ItemBody where
  name : Option String := none
  categoryId : Option String := none
  categoryName : Option String := none
  nutrition : Option PartialNutrition := none
  servingSize : Option String := none
  isActive : Option FsVal := none

/-- JavaScript truthiness of an optional string (an absent field and the
empty string are falsy). -/
def truthyS : Option String → Bool
  | some v => v != ""
  | none => false

/-- The item document stored by the POST /items handler
(src/functions/index.js lines 289-299). -/
def postItemDoc (b : ItemBody) : ItemDocR :=
  { name := b.name
    categoryId := b.categoryId
    categoryName := some (b.categoryName.getD "")
    nutrition := some (b.nutrition.getD (fun _ => none))
    servingSize := some (b.servingSize.getD "")
    isActive := some (FsVal.b (b.isActive != some (FsVal.b false))) }

/-- The POST /items handler body (src/functions/index.js lines 278-314,
after the auth middleware): 400 unless name and categoryId are truthy,
otherwise one batch creates the item and increments the category
itemCount. -/
def postItemsHandler (s : LStore) (b : ItemBody) : Resp × LStore :=
  if !(truthyS b.name && truthyS b.categoryId) then
    ({ status := 400, success := false,
       error := some "Name and categoryId are required" }, s)
  else
    let batch : List LWrite :=
      [.setItem s.nextId (postItemDoc b),
       .updCatCount (b.categoryId.getD "") 1]
    ({ status := 201, success := true },
     commit { s with nextId := s.nextId + 1 } batch)

/-- The full POST /items endpoint: authenticate, requireAdmin, handler.  An
authentication or authorization failure responds before the handler runs, so
the store is untouched. -/
def postItemsEndpoint (s : LStore) (verify : String → Option Token)
    (req : Request) (body : ItemBody) : Resp × LStore :=
  match authenticate s verify req with
  | .error r => (r, s)
  | .ok p =>
    match requireAdmin s p with
    | some r => (r, s)
    | none => postItemsHandler s body

/-- The GET /items/:id handler (src/functions/index.js lines 254-275): the
response data spreads the raw stored document without transforming any
field; in particular a missing or non-boolean isActive is echoed as
stored. -/
def getItemHandler (s : LStore) (id : Nat) : Resp × Option ItemDocR :=
  match Norm.lookupDoc s.items id with
  | none => ({ status := 404, success := false,
               error := some "Item not found" }, none)
  | some d => ({ status := 200, success := true }, some d)

end Fns

/-! Admin bulk import page (src/unnamed/part_000): JSON parsing, category
resolution and the chunked item-creation phase of handleNutritionImport. -/

namespace Import

/-- One parsed input row of a nutrition import file: name, category name and
a possibly partial nutrition payload. -/
structure Row where
  name : String
  category : String
  nutrition : PartialNutrition

/-- Insertion-ordered de-duplication, the semantics of spreading a Set built
from a list. -/
def dedupFirstSeen (l : List String) : List String :=
  l.foldl (fun acc x => if acc.contains x then acc else acc ++ [x]) []

/-- Recursive characterization of first-seen de-duplication: keep the first
occurrence of each name, in order of first occurrence. -/
def firstSeenF : Nat → List String → List String
  | _, [] => []
  | 0, _ :: _ => []
  | Nat.succ fuel, x :: xs => x :: firstSeenF fuel (xs.filter (fun y => !(y == x)))

/-- Recursive characterization of first-seen de-duplication, fuelled with
the list length (the filtered tail is never longer than the tail, so the
fuel never runs out). -/
def firstSeen (l : List String) : List String := firstSeenF l.length l

/-- A parsed import file: either a bare array of rows, or an object with an
items field and an optional explicit categories list. -/
inductive ImportJson where
  | arr (items : List Row)
  | obj (categories : Option (List String)) (items : List Row)

/-- The category list produced by parseNutritionJson (src/unnamed/part_000
lines 73-91): first-seen distinct item categories for a bare array; for an
object, the explicit categories field when present (used as given), else the
computed distinct list. -/
def parseCategories : ImportJson → List String
  | .arr items => dedupFirstSeen (items.map (fun r => r.category))
  | .obj (some cs) _ => cs
  | .obj none items => dedupFirstSeen (items.map (fun r => r.category))

/-- The rows of a parsed import file. -/
def parseItems : ImportJson → List Row
  | .arr items => items
  | .obj _ items => items

/-- Lookup in the map built by new Map(existing.map(c => [lowercased name,
c])): a later entry overwrites an earlier one with the same lowercased name,
so the last match wins. -/
def lastByLowerName (existing : List (String × Norm.CatRec)) (lname : String) :
    Option (String × Norm.CatRec) :=
  existing.reverse.find? (fun c => strLower c.2.name == lname)

/-- Lookup in the categoryIdMap (Map.set semantics: last set wins). -/
def lookupNameId (m : List (String × String)) (nm : String) : Option String :=
  (m.reverse.find? (fun p => p.1 == nm)).map (fun p => p.2)

/-- The category-resolution loop of handleNutritionImport
(src/unnamed/part_000 lines 117-141): each category name is looked up
case-insensitively in the pre-import snapshot; a miss creates a category
with slug generateSlug(name), displayOrder existing.length + created + 1 and
isActive true, where created counts the categories created so far in
this import.  Accumulates the store, the name-to-id map and the created
counter. -/
def resolveLoop (existing : List (String × Norm.CatRec)) :
    List String → Norm.NStore → List (String × String) → Nat →
    Norm.NStore × List (String × String) × Nat
  | [], s, m, n => (s, m, n)
  | nm :: rest, s, m, n =>
    match lastByLowerName existing (strLower nm) with
    | some c => resolveLoop existing rest s (m ++ [(nm, c.1)]) n
    | none =>
      let r := Norm.createCategory s
        { name := nm
          slug := generateSlug nm
          displayOrder := (existing.length : Int) + (n : Int) + 1
          isActive := true }
      resolveLoop existing rest r.2 (m ++ [(nm, r.1)]) (n + 1)

/-- Conversion of an input row to the item form data
(src/unnamed/part_000 lines 143-149): category id resolved through the map
(empty string fallback), isActive true, nutrition merged over the all-zero
template. -/
def toFormData (m : List (String × String)) (r : Row) : Norm.MenuItemFormData :=
  { name := r.name
    categoryId := (lookupNameId m r.category).getD ""
    categoryName := r.category
    isActive := true
    nutrition := fun k => (r.nutrition k).getD 0 }

/-- The item-creation phase (src/unnamed/part_000 lines 151-156): the form
data list is cut into chunks of 50 and each chunk is passed to a separate
bulkCreateItems call, so the de-duplication map of bulkCreateItems starts
fresh on every chunk. -/
def importChunksF : Nat → List Norm.MenuItemFormData → Norm.NStore → Norm.NStore
  | _, [], s => s
  | 0, _ :: _, s => s
  | Nat.succ fuel, it :: its, s =>
    importChunksF fuel ((it :: its).drop 50)
      (Norm.bulkCreateItems s ((it :: its).take 50)).1

/-- The chunk loop entry point, fuelled with the item count (every chunk
consumes at least one item, so the fuel never runs out). -/
def importChunks (items : List Norm.MenuItemFormData) (s : Norm.NStore) :
    Norm.NStore :=
  importChunksF items.length items s

/-- The nutrition import pipeline of handleNutritionImport
(src/unnamed/part_000 lines 110-168): resolve categories against the
pre-import snapshot, then create the items chunk by chunk. -/
def handleNutritionImport (s : Norm.NStore) (data : ImportJson) : Norm.NStore :=
  let names := parseCategories data
  let r := resolveLoop s.categories names s [] 0
  importChunks ((parseItems data).map (toFormData r.2.1)) r.1

/-- The fingerprint of a stored base item, for counting de-duplication
results. -/
def baseKey (b : Norm.BaseRec) : String × List Int :=
  (b.name.toLower, serializeNutrition b.nutrition)

end Import

namespace Fns

/-- Lookup of a category document (with its maintained itemCount) by id. -/
def lookupLCat (cats : List (String × LCat)) (cid : String) : Option LCat :=
  (cats.find? (fun p => p.1 == cid)).map (fun p => p.2)

end Fns

/-- The base-item rows produced by a migration run over documents with
pairwise distinct fingerprints: one base item per document, ids advancing by
two (base, then assignment). -/
def migShapeB : List (Nat × ItemDocR) → Nat → Nat → List (Nat × Norm.BaseRec)
  | [], _, _ => []
  | (_, d) :: ds, n, t => (n, Norm.migBase d t) :: migShapeB ds (n + 2) t

/-- The assignment rows produced by a migration run over documents with
pairwise distinct fingerprints: one row per document, pointing at the base
item created just before it. -/
def migShapeA : List (Nat × ItemDocR) → Nat → List (Nat × Norm.AssignRec)
  | [], _ => []
  | (_, d) :: ds, n =>
    (n + 1, ⟨n, d.categoryId.getD ""⟩) :: migShapeA ds (n + 2)

/-- The logical fields of an item view compared across the two storage
schemas: name, category id, category name, active flag, nutrition and
allergens (ids and timestamps are storage artifacts; servingSize is
normalized by the migration, empty string to null). -/
def logicalFields (v : MenuItemView) :
    String × String × String × Bool × NutritionData × AllergenFlags :=
  (v.name, v.categoryId, v.categoryName, v.isActive, v.nutrition, v.allergens)

/-! Theorems. -/

/-- C3: idempotent read-merge of nutrition/allergen extraction.  For every
stored document, whatever subset of nutrition or allergen fields it holds and
whether they are stored nested or flat, the extraction helpers return a
record over exactly the full fixed key set (15 numeric nutrition keys,
12 boolean allergen keys), every unspecified key defaulting to 0 or false and
every specified key keeping its stored value.  The helpers are total Lean
functions, so no input can make them raise. -/
theorem extract_read_merge_total (d : ItemDocR) :
    (∀ k, nutritionStored d k = none → readNutrition d k = 0) ∧
    (∀ k v, nutritionStored d k = some v → readNutrition d k = v) ∧
    (∀ k, allergenStored d k = none → extractAllergens d k = false) ∧
    (∀ k b, allergenStored d k = some b → extractAllergens d k = b) ∧
    (∀ k, allergenStored d k = none → Allerg.extractAllergens d k = false) ∧
    (∀ k b, allergenStored d k = some b → Allerg.extractAllergens d k = b) ∧
    Fintype.card NutriKey = 15 ∧ Fintype.card AllergKey = 12 := by
  refine ⟨?_, ?_, ?_, ?_, ?_, ?_, by decide, by decide⟩ <;>
    intro k <;>
    cases hn : d.nutrition <;> cases ha : d.allergens <;>
    simp_all [nutritionStored, allergenStored, readNutrition, extractNutrition,
      extractAllergens, Allerg.extractAllergens]

/-- Witness for extract_read_merge_total: on the empty document the calories
field is unspecified and reads as 0. -/
theorem extract_read_merge_total_witness :
    readNutrition {} NutriKey.calories = 0 :=
  (extract_read_merge_total {}).1 NutriKey.calories rfl

/-- Every character produced by the run-collapsing pass is either kept from
the input (hence in [a-z0-9]) or an inserted hyphen. -/
theorem collapseGo_mem {b : Bool} {l : List Char} {c : Char}
    (h : c ∈ collapseGo b l) : isSlugChar c = true ∨ c = '-' := by
  induction l generalizing b with
  | nil => simp [collapseGo] at h
  | cons x xs ih =>
    by_cases hx : isSlugChar x
    · rw [show collapseGo b (x :: xs) = x :: collapseGo false xs by
        simp [collapseGo, hx]] at h
      rcases List.mem_cons.mp h with h1 | h2
      · exact Or.inl (h1 ▸ hx)
      · exact ih h2
    · cases b with
      | true =>
        rw [show collapseGo true (x :: xs) = collapseGo true xs by
          simp [collapseGo, hx]] at h
        exact ih h
      | false =>
        rw [show collapseGo false (x :: xs) = '-' :: collapseGo true xs by
          simp [collapseGo, hx]] at h
        rcases List.mem_cons.mp h with h1 | h2
        · exact Or.inr h1
        · exact ih h2

/-- The collapsing pass never emits two adjacent hyphens, and with the
in-run flag set it never starts with a hyphen. -/
theorem collapseGo_chain (l : List Char) :
    List.Chain' (fun a b => a ≠ '-' ∨ b ≠ '-') (collapseGo false l) ∧
    List.Chain' (fun a b => a ≠ '-' ∨ b ≠ '-') (collapseGo true l) ∧
    (collapseGo true l).head? ≠ some '-' := by
  induction l with
  | nil => simp [collapseGo]
  | cons x xs ih =>
    obtain ⟨ihF, ihT, ihH⟩ := ih
    by_cases hx : isSlugChar x
    · have hxne : x ≠ '-' := by
        intro e; subst e; simp [isSlugChar] at hx
      have hcons : List.Chain' (fun a b => a ≠ '-' ∨ b ≠ '-')
          (x :: collapseGo false xs) :=
        List.chain'_cons'.mpr ⟨fun y _ => Or.inl hxne, ihF⟩
      refine ⟨?_, ?_, ?_⟩
      · simpa [collapseGo, hx] using hcons
      · simpa [collapseGo, hx] using hcons
      · rw [show collapseGo true (x :: xs) = x :: collapseGo false xs by
          simp [collapseGo, hx]]
        simp [hxne]
    · have hT : collapseGo true (x :: xs) = collapseGo true xs := by
        simp [collapseGo, hx]
      have hF : collapseGo false (x :: xs) = '-' :: collapseGo true xs := by
        simp [collapseGo, hx]
      refine ⟨?_, ?_, ?_⟩
      · rw [hF]
        refine List.chain'_cons'.mpr ⟨?_, ihT⟩
        intro y hy
        right
        intro e
        exact ihH (by rw [hy, e])
      · rw [hT]; exact ihT
      · rw [hT]; exact ihH

/-- Dropping one leading hyphen keeps a sublist of the characters. -/
theorem dropLeadHyphen_subset {l : List Char} : dropLeadHyphen l ⊆ l := by
  cases l with
  | nil => simp [dropLeadHyphen]
  | cons c t =>
    by_cases hc : c = '-'
    · simp [dropLeadHyphen, hc, List.subset_cons_self]
    · simp [dropLeadHyphen, hc, List.Subset.refl]

/-- Dropping one trailing hyphen keeps a sublist of the characters. -/
theorem dropTrailHyphen_subset {l : List Char} : dropTrailHyphen l ⊆ l := by
  intro c hc
  unfold dropTrailHyphen at hc
  rw [List.mem_reverse] at hc
  have := dropLeadHyphen_subset hc
  rw [List.mem_reverse] at this
  exact this

/-- Dropping one leading hyphen preserves the adjacency chain. -/
theorem dropLeadHyphen_chain {R : Char → Char → Prop} {l : List Char}
    (h : List.Chain' R l) : List.Chain' R (dropLeadHyphen l) := by
  cases l with
  | nil => exact h
  | cons c t =>
    by_cases hc : c = '-'
    · simpa [dropLeadHyphen, hc] using (List.chain'_cons'.mp h).2
    · simpa [dropLeadHyphen, hc] using h

/-- On a list with no adjacent hyphens, dropping one leading hyphen is the
same as dropping every leading hyphen. -/
theorem dropLeadHyphen_eq_dropWhile {l : List Char}
    (h : List.Chain' (fun a b => a ≠ '-' ∨ b ≠ '-') l) :
    dropLeadHyphen l = l.dropWhile (fun c => c = '-') := by
  cases l with
  | nil => rfl
  | cons c t =>
    by_cases hc : c = '-'
    · subst hc
      have ht : t.dropWhile (fun c => c = '-') = t := by
        cases t with
        | nil => rfl
        | cons d t2 =>
          have hd : d ≠ '-' := by
            rcases (List.chain'_cons.mp h).1 with h1 | h2
            · exact absurd rfl h1
            · exact h2
          simp [List.dropWhile_cons, hd]
      simp [dropLeadHyphen, List.dropWhile_cons, ht]
    · simp [dropLeadHyphen, hc, List.dropWhile_cons]

/-- On a list with no adjacent hyphens, the head after dropping one leading
hyphen is never a hyphen. -/
theorem dropLeadHyphen_head {l : List Char}
    (h : List.Chain' (fun a b => a ≠ '-' ∨ b ≠ '-') l) :
    (dropLeadHyphen l).head? ≠ some '-' := by
  cases l with
  | nil => simp [dropLeadHyphen]
  | cons c t =>
    by_cases hc : c = '-'
    · subst hc
      simp only [dropLeadHyphen, if_pos rfl]
      cases t with
      | nil => simp
      | cons d t2 =>
        have hd : d ≠ '-' := by
          rcases (List.chain'_cons.mp h).1 with h1 | h2
          · exact absurd rfl h1
          · exact h2
        simp [hd]
    · simp [dropLeadHyphen, hc, hc]

/-- The head survives dropping one trailing hyphen. -/
theorem dropTrailHyphen_head {m : List Char} {c : Char}
    (h : (dropTrailHyphen m).head? = some c) : m.head? = some c := by
  unfold dropTrailHyphen at h
  cases hr : m.reverse with
  | nil =>
    rw [hr] at h
    simp [dropLeadHyphen] at h
  | cons x r2 =>
    have hm : m = r2.reverse ++ [x] := by
      have h2 := congrArg List.reverse hr
      simpa using h2
    rw [hr] at h
    by_cases hx : x = '-'
    · rw [show dropLeadHyphen (x :: r2) = r2 by simp [dropLeadHyphen, hx]] at h
      rw [hm]
      cases hrr : r2.reverse with
      | nil => rw [hrr] at h; simp at h
      | cons y ys =>
        rw [hrr] at h
        simp only [List.head?_cons, Option.some.injEq] at h
        simp [h]
    · rw [show dropLeadHyphen (x :: r2) = x :: r2 by simp [dropLeadHyphen, hx]]
        at h
      rw [show m = (x :: r2).reverse by simpa using hm]
      exact h

/-- With only non-slug characters left and the in-run flag set, the collapse
pass emits nothing. -/
theorem collapseGo_true_eq_nil {l : List Char}
    (h : ∀ c ∈ l, isSlugChar c = false) : collapseGo true l = [] := by
  induction l with
  | nil => rfl
  | cons x xs ih =>
    have hx := h x (List.mem_cons_self x xs)
    rw [show collapseGo true (x :: xs) = collapseGo true xs by
      simp [collapseGo, hx]]
    exact ih fun c hc => h c (List.mem_cons_of_mem x hc)

/-- C9: generateSlug is total and URL-safe.  For every input string the
result contains only characters of [a-z0-9] or hyphens, has no leading and no
trailing hyphen, equals the lowercased input with each maximal run of
characters outside [a-z0-9] replaced by a single hyphen and all boundary
hyphens stripped (specSlug), and an input with no alphanumeric character
yields the empty string. -/
theorem generateSlug_total_urlsafe (s : String) :
    (∀ c ∈ (generateSlug s).toList, isSlugChar c = true ∨ c = '-') ∧
    (generateSlug s).toList.head? ≠ some '-' ∧
    (generateSlug s).toList.getLast? ≠ some '-' ∧
    generateSlug s = specSlug s ∧
    ((∀ c ∈ s.toList, isSlugChar (Char.toLower c) = false) →
      generateSlug s = "") := by
  obtain ⟨hF, hT, hH⟩ := collapseGo_chain (s.toList.map Char.toLower)
  have hm : List.Chain' (fun a b => a ≠ '-' ∨ b ≠ '-')
      (dropLeadHyphen (collapseGo false (s.toList.map Char.toLower))) :=
    dropLeadHyphen_chain hF
  have hmrev : List.Chain' (fun a b => a ≠ '-' ∨ b ≠ '-')
      (dropLeadHyphen (collapseGo false (s.toList.map Char.toLower))).reverse :=
    List.chain'_reverse.mpr (hm.imp fun a b hab => hab.symm)
  have htoList : (generateSlug s).toList =
      dropTrailHyphen (dropLeadHyphen
        (collapseGo false (s.toList.map Char.toLower))) := rfl
  refine ⟨?_, ?_, ?_, ?_, ?_⟩
  · intro c hc
    rw [htoList] at hc
    exact collapseGo_mem (dropLeadHyphen_subset (dropTrailHyphen_subset hc))
  · rw [htoList]
    intro hbad
    exact dropLeadHyphen_head hF (dropTrailHyphen_head hbad)
  · rw [htoList]
    unfold dropTrailHyphen
    rw [List.getLast?_reverse]
    exact dropLeadHyphen_head hmrev
  · show String.mk _ = String.mk _
    congr 1
    unfold dropTrailHyphen
    rw [← dropLeadHyphen_eq_dropWhile hF, ← dropLeadHyphen_eq_dropWhile hmrev]
  · intro h
    have hmap : ∀ c ∈ s.toList.map Char.toLower, isSlugChar c = false := by
      intro c hc
      obtain ⟨a, ha, rfl⟩ := List.mem_map.mp hc
      exact h a ha
    show String.mk _ = ""
    cases hL : s.toList.map Char.toLower with
    | nil => rfl
    | cons x xs =>
      rw [hL] at hmap
      have hx := hmap x (List.mem_cons_self x xs)
      have hxs : collapseGo true xs = [] :=
        collapseGo_true_eq_nil fun c hc => hmap c (List.mem_cons_of_mem x hc)
      rw [show collapseGo false (x :: xs) = '-' :: collapseGo true xs by
        simp [collapseGo, hx], hxs]
      rfl

/-- Witness for generateSlug_total_urlsafe: a string of punctuation has no
alphanumeric characters and slugs to the empty string. -/
theorem generateSlug_total_urlsafe_witness : generateSlug "++" = "" :=
  (generateSlug_total_urlsafe "++").2.2.2.2 (by decide)

/-- C4: referential-integrity block with atomicity.  Each category-delete
path checks its own referencing set first and, when at least one referencing
item or assignment exists, throws or responds with the conflict error while
leaving the store exactly as it was: the normalized deleteCategory checks
assignment rows, the DELETE /categories/:id handler checks items with a
matching categoryId, and the legacy-service deleteCategory checks the
(name-ordered) items query. -/
theorem deleteCategory_blocked (sN : Norm.NStore) (sL : Fns.LStore)
    (cid : String)
    (hA : ∃ p ∈ sN.assignments, p.2.categoryId = cid)
    (hI : ∃ p ∈ sL.items, p.2.categoryId = some cid)
    (hN : ∃ p ∈ sL.items, p.2.categoryId = some cid ∧ p.2.name.isSome) :
    Norm.deleteCategory sN cid =
      (some "Cannot delete category with existing items. Remove item assignments first.",
       sN) ∧
    Fns.deleteCategoryHandler sL cid =
      ({ status := 400, success := false,
         error := some "Cannot delete category with existing items" }, sL) ∧
    Fns.deleteCategory sL cid =
      (some "Cannot delete category with existing items. Delete or move items first.",
       sL) := by
  refine ⟨?_, ?_, ?_⟩
  · obtain ⟨p, hp, hpcid⟩ := hA
    have hmem : p ∈ sN.assignments.filter (fun q => q.2.categoryId == cid) :=
      List.mem_filter.mpr ⟨hp, by simp [hpcid]⟩
    have hpos : 0 < (sN.assignments.filter (fun q => q.2.categoryId == cid)).length :=
      List.length_pos.mpr (List.ne_nil_of_mem hmem)
    simp [Norm.deleteCategory, hpos]
  · obtain ⟨p, hp, hpcid⟩ := hI
    have hmem : p ∈ sL.items.filter (fun q => q.2.categoryId == some cid) :=
      List.mem_filter.mpr ⟨hp, by simp [hpcid]⟩
    have hpos : 0 < (sL.items.filter (fun q => q.2.categoryId == some cid)).length :=
      List.length_pos.mpr (List.ne_nil_of_mem hmem)
    simp [Fns.deleteCategoryHandler, hpos]
  · obtain ⟨p, hp, hpcid, hpname⟩ := hN
    have hmem : p ∈ sL.items.filter
        (fun q => q.2.categoryId == some cid && q.2.name.isSome) :=
      List.mem_filter.mpr ⟨hp, by simp [hpcid, hpname]⟩
    have hpos : 0 < (sL.items.filter
        (fun q => q.2.categoryId == some cid && q.2.name.isSome)).length :=
      List.length_pos.mpr (List.ne_nil_of_mem hmem)
    simp [Fns.deleteCategory, hpos]

/-- Witness for deleteCategory_blocked: one assignment row and one item
referencing category c1 block all three delete paths. -/
theorem deleteCategory_blocked_witness :
    Norm.deleteCategory { assignments := [(0, ⟨5, "c1"⟩)] } "c1" =
      (some "Cannot delete category with existing items. Remove item assignments first.",
       { assignments := [(0, ⟨5, "c1"⟩)] }) :=
  (deleteCategory_blocked { assignments := [(0, ⟨5, "c1"⟩)] }
    { items := [(0, { name := some "x", categoryId := some "c1" })] } "c1"
    ⟨(0, ⟨5, "c1"⟩), by simp, rfl⟩
    ⟨(0, { name := some "x", categoryId := some "c1" }), by simp, rfl⟩
    ⟨(0, { name := some "x", categoryId := some "c1" }), by simp, rfl, rfl⟩).1

/-- C6: an unauthorized write is rejected before any data mutation.  A
request to the admin-guarded POST /items carrying neither an X-API-Key
header nor an Authorization header receives HTTP 401 with success false, and
the store is returned unchanged: the authentication middleware responds
before the handler body runs. -/
theorem unauthorized_write_rejected (s : Fns.LStore)
    (verify : String → Option Fns.Token) (body : Fns.ItemBody)
    (req : Fns.Request)
    (h1 : req.xApiKey = none) (h2 : req.authorization = none) :
    Fns.postItemsEndpoint s verify req body =
      ({ status := 401, success := false, error := some "Unauthorized" }, s) := by
  simp [Fns.postItemsEndpoint, Fns.authenticate, h1, h2]

/-- Witness for unauthorized_write_rejected: the empty request against an
empty store. -/
theorem unauthorized_write_rejected_witness :
    Fns.postItemsEndpoint {} (fun _ => none) {} { name := some "Taco" } =
      ({ status := 401, success := false, error := some "Unauthorized" },
       {}) :=
  unauthorized_write_rejected {} (fun _ => none) { name := some "Taco" } {} rfl rfl

/-- An itemCount update targeting cid changes exactly the looked-up
category. -/
theorem lookupLCat_map_inc (cats : List (String × Fns.LCat)) (cid : String)
    (dlt : Int) :
    Fns.lookupLCat (cats.map fun p =>
        if p.1 == cid then (p.1, { p.2 with itemCount := p.2.itemCount + dlt })
        else p) cid =
      (Fns.lookupLCat cats cid).map
        (fun c => { c with itemCount := c.itemCount + dlt }) := by
  induction cats with
  | nil => rfl
  | cons p ps ih =>
    by_cases hp : p.1 = cid
    · simp [Fns.lookupLCat, List.find?_cons, hp]
    · have hb : (p.1 == cid) = false := by simp [hp]
      simp only [List.map_cons, hb, if_neg, Bool.false_eq_true, ite_false]
      simpa [Fns.lookupLCat, List.find?_cons, hb] using ih

/-- An itemCount update targeting another category leaves the looked-up
category unchanged. -/
theorem lookupLCat_map_other (cats : List (String × Fns.LCat))
    {cid cid2 : String} (h : cid ≠ cid2) (dlt : Int) :
    Fns.lookupLCat (cats.map fun p =>
        if p.1 == cid2 then (p.1, { p.2 with itemCount := p.2.itemCount + dlt })
        else p) cid =
      Fns.lookupLCat cats cid := by
  induction cats with
  | nil => rfl
  | cons p ps ih =>
    simp only [List.map_cons]
    by_cases hp2 : p.1 = cid2
    · have hcid : ¬ p.1 = cid := fun e => h (e.symm.trans hp2)
      rw [if_pos (by simpa using hp2)]
      unfold Fns.lookupLCat
      rw [List.find?_cons_of_neg _ (by simpa using hcid),
          List.find?_cons_of_neg _ (by simpa using hcid)]
      exact ih
    · rw [if_neg (by simpa using hp2)]
      by_cases hq : p.1 = cid
      · unfold Fns.lookupLCat
        rw [List.find?_cons_of_pos _ (by simpa using hq),
            List.find?_cons_of_pos _ (by simpa using hq)]
      · unfold Fns.lookupLCat
        rw [List.find?_cons_of_neg _ (by simpa using hq),
            List.find?_cons_of_neg _ (by simpa using hq)]
        exact ih

/-- C1: count invariant under single operations.  In the legacy schema,
creating an item writes the item and increments its category itemCount from
N to N+1, in one batch; deleting an item decrements the count in the same
batch as the delete; updating an item onto a different category decrements
the old and increments the new category count in one atomic batch, and when
the payload category equals the current one the committed batch contains no
count write and the category collection is unchanged.  In the normalized
schema, createItem adds base item and assignment in one batch and the
effective itemCount (the assignment count reported back to readers) grows
from N to N+1.  The POST /items handler behaves like the legacy
createItem. -/
theorem count_invariant_single_ops :
    (∀ (sL : Fns.LStore) (d : Norm.MenuItemFormData) (c : Fns.LCat),
      Fns.lookupLCat sL.categories d.categoryId = some c →
      (Fns.createItem sL d).1 =
        [Fns.LWrite.setItem sL.nextId (Fns.mkItemDoc d),
         Fns.LWrite.updCatCount d.categoryId 1] ∧
      Fns.lookupLCat ((Fns.createItem sL d).2.2).categories d.categoryId =
        some { c with itemCount := c.itemCount + 1 }) ∧
    (∀ (sL : Fns.LStore) (id : Nat) (doc : ItemDocR) (c : Fns.LCat),
      Norm.lookupDoc sL.items id = some doc →
      Fns.lookupLCat sL.categories (doc.categoryId.getD "") = some c →
      ∃ s2, Fns.deleteItem sL id =
          .ok ([Fns.LWrite.delItem id,
                Fns.LWrite.updCatCount (doc.categoryId.getD "") (-1)], s2) ∧
        Fns.lookupLCat s2.categories (doc.categoryId.getD "") =
          some { c with itemCount := c.itemCount - 1 }) ∧
    (∀ (sL : Fns.LStore) (id : Nat) (u : Fns.ItemUpdL) (doc : ItemDocR)
       (cid : String) (cOld cNew : Fns.LCat),
      u.categoryId = some cid → cid ≠ "" →
      Norm.lookupDoc sL.items id = some doc →
      doc.categoryId.getD "" ≠ cid →
      Fns.lookupLCat sL.categories (doc.categoryId.getD "") = some cOld →
      Fns.lookupLCat sL.categories cid = some cNew →
      ∃ s2, Fns.updateItem sL id u =
          .ok ([Fns.LWrite.updItem id u,
                Fns.LWrite.updCatCount (doc.categoryId.getD "") (-1),
                Fns.LWrite.updCatCount cid 1], s2) ∧
        Fns.lookupLCat s2.categories (doc.categoryId.getD "") =
          some { cOld with itemCount := cOld.itemCount - 1 } ∧
        Fns.lookupLCat s2.categories cid =
          some { cNew with itemCount := cNew.itemCount + 1 }) ∧
    (∀ (sL : Fns.LStore) (id : Nat) (u : Fns.ItemUpdL) (doc : ItemDocR)
       (cid : String),
      u.categoryId = some cid → cid ≠ "" →
      Norm.lookupDoc sL.items id = some doc →
      doc.categoryId.getD "" = cid →
      ∃ s2, Fns.updateItem sL id u = .ok ([Fns.LWrite.updItem id u], s2) ∧
        (∀ w ∈ [Fns.LWrite.updItem id u], w.isCountWrite = false) ∧
        s2.categories = sL.categories) ∧
    (∀ (sN : Norm.NStore) (d : Norm.MenuItemFormData),
      Norm.categoryItemCount (Norm.createItem sN d).2 d.categoryId =
        Norm.categoryItemCount sN d.categoryId + 1) ∧
    (∀ (sL : Fns.LStore) (b : Fns.ItemBody) (cid : String) (c : Fns.LCat),
      Fns.truthyS b.name = true → b.categoryId = some cid → cid ≠ "" →
      Fns.lookupLCat sL.categories cid = some c →
      Fns.lookupLCat ((Fns.postItemsHandler sL b).2).categories cid =
        some { c with itemCount := c.itemCount + 1 }) := by
  refine ⟨?_, ?_, ?_, ?_, ?_, ?_⟩
  · intro sL d c hc
    refine ⟨rfl, ?_⟩
    show Fns.lookupLCat
      (Fns.commit { sL with nextId := sL.nextId + 1 } _).categories _ = _
    simp only [Fns.commit, List.foldl_cons, List.foldl_nil, Fns.applyWrite]
    rw [lookupLCat_map_inc, hc]
    rfl
  · intro sL id doc c hdoc hc
    refine ⟨Fns.commit sL [Fns.LWrite.delItem id,
        Fns.LWrite.updCatCount (doc.categoryId.getD "") (-1)], ?_, ?_⟩
    · simp [Fns.deleteItem, hdoc]
    · have h1 : c.itemCount + (-1) = c.itemCount - 1 := by omega
      simp only [Fns.commit, List.foldl_cons, List.foldl_nil, Fns.applyWrite]
      rw [lookupLCat_map_inc, hc]
      simp [h1]
  · intro sL id u doc cid cOld cNew hu hne hdoc hdiff hcOld hcNew
    refine ⟨Fns.commit sL [Fns.LWrite.updItem id u,
        Fns.LWrite.updCatCount (doc.categoryId.getD "") (-1),
        Fns.LWrite.updCatCount cid 1], ?_, ?_, ?_⟩
    · simp [Fns.updateItem, hu, hne, hdoc, hdiff]
    · have h1 : cOld.itemCount + (-1) = cOld.itemCount - 1 := by omega
      simp only [Fns.commit, List.foldl_cons, List.foldl_nil, Fns.applyWrite]
      rw [lookupLCat_map_other _ hdiff, lookupLCat_map_inc, hcOld]
      simp [h1]
    · simp only [Fns.commit, List.foldl_cons, List.foldl_nil, Fns.applyWrite]
      rw [lookupLCat_map_inc, lookupLCat_map_other _ (Ne.symm hdiff), hcNew]
      rfl
  · intro sL id u doc cid hu hne hdoc hsame
    refine ⟨Fns.commit sL [Fns.LWrite.updItem id u], ?_, ?_, ?_⟩
    · simp [Fns.updateItem, hu, hne, hdoc, hsame]
    · intro w hw
      rcases List.mem_singleton.mp hw with rfl
      rfl
    · simp [Fns.commit, Fns.applyWrite]
  · intro sN d
    simp [Norm.createItem, Norm.categoryItemCount, List.filter_append]
  · intro sL b cid c hname hbcid hne hc
    have htc : Fns.truthyS b.categoryId = true := by
      simp [Fns.truthyS, hbcid, hne]
    simp only [Fns.postItemsHandler, hname, htc, Bool.and_self, Bool.not_true,
      Bool.false_eq_true, if_false]
    simp only [Fns.commit, List.foldl_cons, List.foldl_nil, Fns.applyWrite,
      hbcid, Option.getD_some]
    rw [lookupLCat_map_inc, hc]
    rfl

/-- Witness for count_invariant_single_ops: creating one item in a category
with itemCount 0 yields itemCount 1 in the same batch. -/
theorem count_invariant_single_ops_witness :
    Fns.lookupLCat
      ((Fns.createItem { categories := [("c1", { itemCount := 0 })] }
        { name := "t", categoryId := "c1", categoryName := "",
          isActive := true, nutrition := emptyNutrition }).2.2).categories
      "c1" = some { name := "", itemCount := 1 } := by
  have h := (count_invariant_single_ops.1
    { categories := [("c1", { itemCount := 0 })] }
    { name := "t", categoryId := "c1", categoryName := "",
      isActive := true, nutrition := emptyNutrition }
    { name := "", itemCount := 0 } rfl).2
  simpa using h

/-- A single-document overwrite changes exactly the looked-up document. -/
theorem lookupDoc_map_set {α : Type} (l : List (Nat × α)) (id : Nat) (v : α) :
    Norm.lookupDoc (l.map fun p => if p.1 == id then (p.1, v) else p) id =
      (Norm.lookupDoc l id).map (fun _ => v) := by
  induction l with
  | nil => rfl
  | cons p ps ih =>
    simp only [List.map_cons]
    by_cases hp : p.1 = id
    · rw [if_pos (by simpa using hp)]
      unfold Norm.lookupDoc
      rw [List.find?_cons_of_pos _ (by simpa using hp),
          List.find?_cons_of_pos _ (by simpa using hp)]
      rfl
    · rw [if_neg (by simpa using hp)]
      unfold Norm.lookupDoc
      rw [List.find?_cons_of_neg _ (by simpa using hp),
          List.find?_cons_of_neg _ (by simpa using hp)]
      exact ih

/-- A single-document overwrite leaves every other looked-up document
unchanged. -/
theorem lookupDoc_map_set_other {α : Type} (l : List (Nat × α)) {id j : Nat}
    (h : j ≠ id) (v : α) :
    Norm.lookupDoc (l.map fun p => if p.1 == id then (p.1, v) else p) j =
      Norm.lookupDoc l j := by
  induction l with
  | nil => rfl
  | cons p ps ih =>
    simp only [List.map_cons]
    by_cases hp : p.1 = id
    · have hj : ¬ p.1 = j := fun e => h (e ▸ hp)
      rw [if_pos (by simpa using hp)]
      unfold Norm.lookupDoc
      rw [List.find?_cons_of_neg _ (by simpa using fun e => h (e.symm.trans hp)),
          List.find?_cons_of_neg _ (by simpa using hj)]
      exact ih
    · rw [if_neg (by simpa using hp)]
      by_cases hq : p.1 = j
      · unfold Norm.lookupDoc
        rw [List.find?_cons_of_pos _ (by simpa using hq),
            List.find?_cons_of_pos _ (by simpa using hq)]
      · unfold Norm.lookupDoc
        rw [List.find?_cons_of_neg _ (by simpa using hq),
            List.find?_cons_of_neg _ (by simpa using hq)]
        exact ih

/-- A category update targeting cid changes exactly the looked-up
category. -/
theorem lookupCat_map_apply (l : List (String × Norm.CatRec)) (cid : String)
    (f : Norm.CatRec → Norm.CatRec) :
    Norm.lookupCat (l.map fun p => if p.1 == cid then (p.1, f p.2) else p) cid =
      (Norm.lookupCat l cid).map f := by
  induction l with
  | nil => rfl
  | cons p ps ih =>
    simp only [List.map_cons]
    by_cases hp : p.1 = cid
    · rw [if_pos (by simpa using hp)]
      unfold Norm.lookupCat
      rw [List.find?_cons_of_pos _ (by simpa using hp),
          List.find?_cons_of_pos _ (by simpa using hp)]
      rfl
    · rw [if_neg (by simpa using hp)]
      unfold Norm.lookupCat
      rw [List.find?_cons_of_neg _ (by simpa using hp),
          List.find?_cons_of_neg _ (by simpa using hp)]
      exact ih

/-- A category update targeting cid leaves every other looked-up category
unchanged. -/
theorem lookupCat_map_apply_other (l : List (String × Norm.CatRec))
    {cid cid2 : String} (h : cid2 ≠ cid) (f : Norm.CatRec → Norm.CatRec) :
    Norm.lookupCat (l.map fun p => if p.1 == cid then (p.1, f p.2) else p) cid2 =
      Norm.lookupCat l cid2 := by
  induction l with
  | nil => rfl
  | cons p ps ih =>
    simp only [List.map_cons]
    by_cases hp : p.1 = cid
    · rw [if_pos (by simpa using hp)]
      unfold Norm.lookupCat
      rw [List.find?_cons_of_neg _ (by simpa using fun e => h (e.symm.trans hp)),
          List.find?_cons_of_neg _ (by simpa using fun e => h (e.symm.trans hp))]
      exact ih
    · rw [if_neg (by simpa using hp)]
      by_cases hq : p.1 = cid2
      · unfold Norm.lookupCat
        rw [List.find?_cons_of_pos _ (by simpa using hq),
            List.find?_cons_of_pos _ (by simpa using hq)]
      · unfold Norm.lookupCat
        rw [List.find?_cons_of_neg _ (by simpa using hq),
            List.find?_cons_of_neg _ (by simpa using hq)]
        exact ih

/-- C8: partial-update frame property.  For an update of a category, only
the keys present in the payload (plus the server-set updatedAt) are written:
every absent key keeps its stored value, itemCount is never touched, every
other category is unchanged, and no item or assignment document is modified.
For an update of an item, the same holds for the base document fields, every
other base item and all category documents are unchanged, and the assignment
rows are only modified when the payload carries a categoryId different from
the currently assigned one. -/
theorem partial_update_frame :
    (∀ (s : Norm.NStore) (cid : String) (u : Norm.CategoryUpd)
       (c : Norm.CatRec) (s2 : Norm.NStore),
      Norm.lookupCat s.categories cid = some c →
      Norm.updateCategory s cid u = some s2 →
      Norm.lookupCat s2.categories cid = some (Norm.applyCatUpd c u s.time) ∧
      (u.name = none → (Norm.applyCatUpd c u s.time).name = c.name) ∧
      (u.slug = none → (Norm.applyCatUpd c u s.time).slug = c.slug) ∧
      (u.description = none →
        (Norm.applyCatUpd c u s.time).description = c.description) ∧
      (u.displayOrder = none →
        (Norm.applyCatUpd c u s.time).displayOrder = c.displayOrder) ∧
      (u.isActive = none →
        (Norm.applyCatUpd c u s.time).isActive = c.isActive) ∧
      (Norm.applyCatUpd c u s.time).itemCount = c.itemCount ∧
      (Norm.applyCatUpd c u s.time).updatedAt = s.time ∧
      (∀ cid2, cid2 ≠ cid →
        Norm.lookupCat s2.categories cid2 = Norm.lookupCat s.categories cid2) ∧
      s2.baseItems = s.baseItems ∧ s2.assignments = s.assignments ∧
      s2.legacyItems = s.legacyItems) ∧
    (∀ (s : Norm.NStore) (id : Nat) (u : Norm.ItemUpd) (fromCat : Option String)
       (b : Norm.BaseRec) (s2 : Norm.NStore),
      Norm.lookupDoc s.baseItems id = some b →
      Norm.updateItem s id u fromCat = some s2 →
      Norm.lookupDoc s2.baseItems id = some (Norm.applyItemUpd b u s.time) ∧
      (u.name = none → (Norm.applyItemUpd b u s.time).name = b.name) ∧
      (u.isActive = none →
        (Norm.applyItemUpd b u s.time).isActive = b.isActive) ∧
      (u.nutrition = none →
        (Norm.applyItemUpd b u s.time).nutrition = b.nutrition) ∧
      (u.allergens = none →
        (Norm.applyItemUpd b u s.time).allergens = b.allergens) ∧
      (u.servingSize = none →
        (Norm.applyItemUpd b u s.time).servingSize = b.servingSize) ∧
      (Norm.applyItemUpd b u s.time).createdAt = b.createdAt ∧
      (Norm.applyItemUpd b u s.time).updatedAt = s.time ∧
      (∀ j, j ≠ id →
        Norm.lookupDoc s2.baseItems j = Norm.lookupDoc s.baseItems j) ∧
      s2.categories = s.categories ∧ s2.legacyItems = s.legacyItems ∧
      (u.categoryId = none → s2.assignments = s.assignments) ∧
      (∀ a, fromCat = none →
        (s.assignments.filter (fun p => p.2.itemId == id)).head? = some a →
        u.categoryId = some a.2.categoryId →
        s2.assignments = s.assignments)) := by
  constructor
  · intro s cid u c s2 hc hupd
    have hs2 : s2 = { s with categories := s.categories.map fun p =>
        if p.1 == cid then (p.1, Norm.applyCatUpd p.2 u s.time) else p } := by
      rw [Norm.updateCategory, hc] at hupd
      exact (Option.some.inj hupd).symm
    subst hs2
    refine ⟨?_, fun h => by simp [Norm.applyCatUpd, h],
      fun h => by simp [Norm.applyCatUpd, h],
      fun h => by simp [Norm.applyCatUpd, h],
      fun h => by simp [Norm.applyCatUpd, h],
      fun h => by simp [Norm.applyCatUpd, h],
      rfl, rfl, ?_, rfl, rfl, rfl⟩
    · have h2 := lookupCat_map_apply s.categories cid
        (fun c0 => Norm.applyCatUpd c0 u s.time)
      rw [hc] at h2
      exact h2
    · intro cid2 hne
      exact lookupCat_map_apply_other s.categories hne
        (fun c0 => Norm.applyCatUpd c0 u s.time)
  · intro s id u fromCat b s2 hb hupd
    have hfields : (u.name = none → (Norm.applyItemUpd b u s.time).name = b.name) ∧
        (u.isActive = none →
          (Norm.applyItemUpd b u s.time).isActive = b.isActive) ∧
        (u.nutrition = none →
          (Norm.applyItemUpd b u s.time).nutrition = b.nutrition) ∧
        (u.allergens = none →
          (Norm.applyItemUpd b u s.time).allergens = b.allergens) ∧
        (u.servingSize = none →
          (Norm.applyItemUpd b u s.time).servingSize = b.servingSize) ∧
        (Norm.applyItemUpd b u s.time).createdAt = b.createdAt ∧
        (Norm.applyItemUpd b u s.time).updatedAt = s.time := by
      refine ⟨fun h => by simp [Norm.applyItemUpd, h],
        fun h => by simp [Norm.applyItemUpd, h],
        fun h => by simp [Norm.applyItemUpd, h],
        fun h => by simp [Norm.applyItemUpd, h],
        fun h => by simp [Norm.applyItemUpd, h], rfl, rfl⟩
    have hlook : Norm.lookupDoc (s.baseItems.map fun p =>
        if p.1 == id then (p.1, Norm.applyItemUpd b u s.time) else p) id =
        some (Norm.applyItemUpd b u s.time) := by
      rw [lookupDoc_map_set, hb]
      rfl
    have hlookOther : ∀ j, j ≠ id →
        Norm.lookupDoc (s.baseItems.map fun p =>
          if p.1 == id then (p.1, Norm.applyItemUpd b u s.time) else p) j =
        Norm.lookupDoc s.baseItems j := by
      intro j hj
      exact lookupDoc_map_set_other s.baseItems hj _
    cases hcid : u.categoryId with
    | none =>
      have heq : Norm.updateItem s id u fromCat =
          some { s with baseItems := s.baseItems.map fun p =>
            if p.1 == id then (p.1, Norm.applyItemUpd b u s.time) else p } := by
        rw [Norm.updateItem, hb, hcid]
      rw [heq] at hupd
      have hs2 := (Option.some.inj hupd).symm
      subst hs2
      exact ⟨hlook, hfields.1, hfields.2.1, hfields.2.2.1, hfields.2.2.2.1,
        hfields.2.2.2.2.1, hfields.2.2.2.2.2.1, hfields.2.2.2.2.2.2,
        hlookOther, rfl, rfl, fun _ => rfl,
        fun a _ _ h => Option.noConfusion h⟩
    | some cid =>
      by_cases hold : (Option.map (fun p => p.2.categoryId)
          (match fromCat with
           | some t => (s.assignments.filter
               (fun p => p.2.itemId == id)).find? (fun p => p.2.categoryId == t)
           | none => (s.assignments.filter
               (fun p => p.2.itemId == id)).head?)) = some cid
      · have heq : Norm.updateItem s id u fromCat =
            some { s with baseItems := s.baseItems.map fun p =>
              if p.1 == id then (p.1, Norm.applyItemUpd b u s.time) else p } := by
          rw [Norm.updateItem, hb, hcid]
          simp only []
          rw [if_pos hold]
        rw [heq] at hupd
        have hs2 := (Option.some.inj hupd).symm
        subst hs2
        exact ⟨hlook, hfields.1, hfields.2.1, hfields.2.2.1, hfields.2.2.2.1,
          hfields.2.2.2.2.1, hfields.2.2.2.2.2.1, hfields.2.2.2.2.2.2,
          hlookOther, rfl, rfl, fun h => Option.noConfusion h,
          fun a _ _ _ => rfl⟩
      · have heq : Norm.updateItem s id u fromCat =
            some { s with
              baseItems := s.baseItems.map fun p =>
                if p.1 == id then (p.1, Norm.applyItemUpd b u s.time) else p
              assignments := (match (match fromCat with
                  | some t => (s.assignments.filter
                      (fun (p : Nat × Norm.AssignRec) => p.2.itemId == id)).find?
                      (fun (p : Nat × Norm.AssignRec) => p.2.categoryId == t)
                  | none => (s.assignments.filter
                      (fun (p : Nat × Norm.AssignRec) =>
                        p.2.itemId == id)).head?) with
                | some e => s.assignments.filter (fun p => !(p.1 == e.1))
                | none => s.assignments) ++
                [(s.nextId, ⟨id, cid⟩)]
              nextId := s.nextId + 1 } := by
          rw [Norm.updateItem, hb, hcid]
          simp only []
          rw [if_neg hold]
        rw [heq] at hupd
        have hs2 := (Option.some.inj hupd).symm
        subst hs2
        refine ⟨hlook, hfields.1, hfields.2.1, hfields.2.2.1, hfields.2.2.2.1,
          hfields.2.2.2.2.1, hfields.2.2.2.2.2.1, hfields.2.2.2.2.2.2,
          hlookOther, rfl, rfl, fun h => Option.noConfusion h, ?_⟩
        intro a hfrom hhead hueq
        exfalso
        apply hold
        rw [hfrom]
        simp only []
        rw [hhead]
        exact congrArg some (Option.some.inj hueq).symm

/-- Witness for partial_update_frame: updating only the name of a stored
category keeps its slug, displayOrder and itemCount. -/
theorem partial_update_frame_witness :
    Norm.lookupCat
      ((Norm.updateCategory
        { categories := [("c1",
            { name := "Old", slug := "old", displayOrder := 1,
              isActive := true, itemCount := 3 })], time := 9 }
        "c1" { name := some "New" }).getD {}).categories "c1" =
      some { name := "New", slug := "old", displayOrder := 1,
             isActive := true, itemCount := 3, updatedAt := 9 } := by
  have h := (partial_update_frame.1
    { categories := [("c1",
        { name := "Old", slug := "old", displayOrder := 1,
          isActive := true, itemCount := 3 })], time := 9 }
    "c1" { name := some "New" }
    { name := "Old", slug := "old", displayOrder := 1,
      isActive := true, itemCount := 3 } _ rfl rfl).1
  simpa [Norm.applyCatUpd] using h

/-- A fingerprint hit in the seen map appends only an assignment row. -/
theorem bulkStep_hit {s : Norm.NStore}
    {seen : List ((String × List Int) × Nat)} {ids : List Nat}
    {item : Norm.MenuItemFormData} {p : (String × List Int) × Nat}
    (h : seen.find? (fun q => q.1 == Norm.bulkKey item) = some p) :
    Norm.bulkStep (s, seen, ids) item =
      ({ s with
         assignments := s.assignments ++ [(s.nextId, ⟨p.2, item.categoryId⟩)]
         nextId := s.nextId + 1 }, seen, ids) := by
  unfold Norm.bulkStep
  simp only []
  rw [h]

/-- The chunk loop with no items left returns the store unchanged,
whatever fuel remains. -/
theorem importChunksF_nil (fuel : Nat) (s : Norm.NStore) :
    Import.importChunksF fuel [] s = s := by
  cases fuel <;> rfl

/-- The bulk write loop with no items left returns store and ids,
whatever fuel remains. -/
theorem bulkLoop_nil (fuel : Nat) (s : Norm.NStore)
    (seen : List ((String × List Int) × Nat)) (ids : List Nat) :
    Norm.bulkLoop fuel [] s seen ids = (s, ids) := by
  cases fuel <;> rfl

/-- An import phase of at most 50 items is one bulkCreateItems call. -/
theorem importChunks_le50 (s : Norm.NStore)
    (items : List Norm.MenuItemFormData) (h : items.length ≤ 50) :
    Import.importChunks items s = (Norm.bulkCreateItems s items).1 := by
  cases items with
  | nil => rfl
  | cons it its =>
    show Import.importChunksF its.length ((it :: its).drop 50)
      (Norm.bulkCreateItems s ((it :: its).take 50)).1 =
      (Norm.bulkCreateItems s (it :: its)).1
    rw [List.take_of_length_le h, List.drop_eq_nil_of_le h,
      importChunksF_nil]

/-- C2 (amended): dedup fingerprint equivalence within one chunk.  A bulk
load whose input consists of two rows with identical lowercased name and
identical nutrition payload (and different categories) is a single 50-row
chunk, hence one bulkCreateItems call, and creates exactly one base item and
two assignment rows — one per category — the second row reusing the
fingerprint-mapped id of the first. -/
theorem bulk_dedup_fingerprint_pair (s : Norm.NStore)
    (a b : Norm.MenuItemFormData)
    (hn : strLower a.name = strLower b.name)
    (hnut : a.nutrition = b.nutrition)
    (hcat : a.categoryId ≠ b.categoryId) :
    Import.importChunks [a, b] s = (Norm.bulkCreateItems s [a, b]).1 ∧
    Norm.bulkCreateItems s [a, b] =
      ({ s with
         baseItems := s.baseItems ++
           [(s.nextId,
             { name := a.name
               isActive := a.isActive != false
               nutrition := a.nutrition
               allergens := a.allergens.getD emptyAllergenFlags
               servingSize := Norm.jsOrNullStr a.servingSize
               createdAt := s.time
               updatedAt := s.time })]
         assignments := s.assignments ++
           [(s.nextId + 1, ⟨s.nextId, a.categoryId⟩),
            (s.nextId + 2, ⟨s.nextId, b.categoryId⟩)]
         nextId := s.nextId + 3 }, [s.nextId]) := by
  have hkey : Norm.bulkKey b = Norm.bulkKey a := by
    simp [Norm.bulkKey, hn, hnut]
  refine ⟨importChunks_le50 s [a, b] (by simp), ?_⟩
  have ha : Norm.bulkStep (s, [], []) a =
      ({ s with
         baseItems := s.baseItems ++
           [(s.nextId,
             { name := a.name
               isActive := a.isActive != false
               nutrition := a.nutrition
               allergens := a.allergens.getD emptyAllergenFlags
               servingSize := Norm.jsOrNullStr a.servingSize
               createdAt := s.time
               updatedAt := s.time })]
         assignments := s.assignments ++ [(s.nextId + 1, ⟨s.nextId, a.categoryId⟩)]
         nextId := s.nextId + 2 },
       [(Norm.bulkKey a, s.nextId)], [s.nextId]) := rfl
  have hfind : [(Norm.bulkKey a, s.nextId)].find?
      (fun q => q.1 == Norm.bulkKey b) = some (Norm.bulkKey a, s.nextId) :=
    List.find?_cons_of_pos _ (by simp [hkey])
  have hfold : [a, b].foldl Norm.bulkStep (s, [], []) =
      ({ s with
         baseItems := s.baseItems ++
           [(s.nextId,
             { name := a.name
               isActive := a.isActive != false
               nutrition := a.nutrition
               allergens := a.allergens.getD emptyAllergenFlags
               servingSize := Norm.jsOrNullStr a.servingSize
               createdAt := s.time
               updatedAt := s.time })]
         assignments := (s.assignments ++
           [(s.nextId + 1, ⟨s.nextId, a.categoryId⟩)]) ++
           [(s.nextId + 2, ⟨s.nextId, b.categoryId⟩)]
         nextId := s.nextId + 3 },
       [(Norm.bulkKey a, s.nextId)], [s.nextId]) := by
    rw [List.foldl_cons, ha, List.foldl_cons, bulkStep_hit hfind,
      List.foldl_nil]
  show Norm.bulkLoop 2 [a, b] s [] [] = _
  have hstep : Norm.bulkLoop 2 [a, b] s [] [] =
      Norm.bulkLoop 1 []
        ([a, b].foldl Norm.bulkStep (s, [], ([] : List Nat))).1
        ([a, b].foldl Norm.bulkStep (s, [], ([] : List Nat))).2.1
        ([a, b].foldl Norm.bulkStep (s, [], ([] : List Nat))).2.2 := rfl
  rw [hstep, hfold, bulkLoop_nil]
  simp

/-- Witness for bulk_dedup_fingerprint_pair: two concrete rows, same name
and nutrition, categories c1 and c2, create one base item and two
assignments. -/
theorem bulk_dedup_fingerprint_pair_witness :
    ((Norm.bulkCreateItems {}
      [{ name := "Taco", categoryId := "c1", categoryName := "Entrees",
         isActive := true, nutrition := emptyNutrition },
       { name := "Taco", categoryId := "c2", categoryName := "Sides",
         isActive := true, nutrition := emptyNutrition }]).1.baseItems.length = 1)
    ∧ ((Norm.bulkCreateItems {}
      [{ name := "Taco", categoryId := "c1", categoryName := "Entrees",
         isActive := true, nutrition := emptyNutrition },
       { name := "Taco", categoryId := "c2", categoryName := "Sides",
         isActive := true, nutrition := emptyNutrition }]).1.assignments.length = 2) := by
  have h := (bulk_dedup_fingerprint_pair {}
    { name := "Taco", categoryId := "c1", categoryName := "Entrees",
      isActive := true, nutrition := emptyNutrition }
    { name := "Taco", categoryId := "c2", categoryName := "Sides",
      isActive := true, nutrition := emptyNutrition }
    rfl rfl (by decide)).2
  rw [h]
  constructor <;> rfl


set_option maxRecDepth 100000 in
/-- Counterexample for C2 as stated.  This 51-row import has every row
carrying the same fingerprint (lowercased name a, empty nutrition payload);
in particular rows 0 and 50 are two rows with identical lowercased name and
identical nutrition payload but different category names (A versus B).  The
claim says the importer creates exactly one BaseItem for such rows, yet two
base items with that fingerprint exist afterwards: rows 0..49 form the first
50-row chunk and row 50 a second chunk, and the de-duplication map of
bulkCreateItems starts fresh on every chunk. -/
theorem bulk_dedup_crosschunk_counterexample :
    ((Import.handleNutritionImport {} (Import.ImportJson.arr
      ((List.range 51).map fun (i : Nat) =>
        ({ name := "a", category := if i == 50 then "B" else "A",
           nutrition := fun _ => none } : Import.Row)))).baseItems.length = 2)
    ∧ ((Import.handleNutritionImport {} (Import.ImportJson.arr
      ((List.range 51).map fun (i : Nat) =>
        ({ name := "a", category := if i == 50 then "B" else "A",
           nutrition := fun _ => none } : Import.Row)))).baseItems.map
      (fun p => p.2.name)) = ["a", "a"] := by
  constructor <;> decide


/-- Looking up an id that is absent from a prefix finds it in the suffix. -/
theorem lookupDoc_append_right {α : Type} (l1 l2 : List (Nat × α)) (id : Nat)
    (h : Norm.lookupDoc l1 id = none) :
    Norm.lookupDoc (l1 ++ l2) id = Norm.lookupDoc l2 id := by
  induction l1 with
  | nil => rfl
  | cons p ps ih =>
    by_cases hp : p.1 = id
    · exfalso
      unfold Norm.lookupDoc at h
      rw [List.find?_cons_of_pos _ (by simpa using hp)] at h
      simp at h
    · have h2 : Norm.lookupDoc ps id = none := by
        unfold Norm.lookupDoc at h ⊢
        rwa [List.find?_cons_of_neg _ (by simpa using hp)] at h
      show Norm.lookupDoc (p :: (ps ++ l2)) id = _
      unfold Norm.lookupDoc
      rw [List.find?_cons_of_neg _ (by simpa using hp)]
      exact ih h2

/-- C10 (amended): the document-to-model read paths report isActive = true
unless the stored value is exactly the boolean false (a missing field or a
value of any other type reads as true), and the normalizing create paths
(POST /items handler, normalized createItem) store the item as active unless
the payload carries exactly the boolean false.  The raw REST GET endpoints,
by contrast, echo the stored field unchanged (see the counterexample). -/
theorem isActive_default_semantics :
    (∀ (docId : Nat) (d : ItemDocR),
      (d.isActive ≠ some (FsVal.b false) →
        (legacyDocToMenuItem docId d).isActive = true) ∧
      (d.isActive = some (FsVal.b false) →
        (legacyDocToMenuItem docId d).isActive = false)) ∧
    (∀ (docId : Nat) (d : ItemDocR),
      (d.isActive ≠ some (FsVal.b false) →
        (Allerg.docToAllergenItem docId d).isActive = true) ∧
      (d.isActive = some (FsVal.b false) →
        (Allerg.docToAllergenItem docId d).isActive = false)) ∧
    (∀ b : Fns.ItemBody,
      (b.isActive ≠ some (FsVal.b false) →
        (Fns.postItemDoc b).isActive = some (FsVal.b true)) ∧
      (b.isActive = some (FsVal.b false) →
        (Fns.postItemDoc b).isActive = some (FsVal.b false)) ∧
      (∀ docId, b.isActive ≠ some (FsVal.b false) →
        (legacyDocToMenuItem docId (Fns.postItemDoc b)).isActive = true)) ∧
    (∀ (s : Norm.NStore) (d : Norm.MenuItemFormData),
      Norm.lookupDoc s.baseItems s.nextId = none →
      d.isActive = true →
      Norm.lookupDoc (Norm.createItem s d).2.baseItems s.nextId =
        some { name := d.name, isActive := true, nutrition := d.nutrition,
               allergens := d.allergens.getD emptyAllergenFlags,
               servingSize := Norm.jsOrNullStr d.servingSize,
               createdAt := s.time, updatedAt := s.time }) := by
  refine ⟨?_, ?_, ?_, ?_⟩
  · intro docId d
    constructor
    · intro h
      simp [legacyDocToMenuItem, h]
    · intro h
      simp [legacyDocToMenuItem, h]
  · intro docId d
    constructor
    · intro h
      simp [Allerg.docToAllergenItem, h]
    · intro h
      simp [Allerg.docToAllergenItem, h]
  · intro b
    refine ⟨?_, ?_, ?_⟩
    · intro h
      simp [Fns.postItemDoc, h]
    · intro h
      simp [Fns.postItemDoc, h]
    · intro docId h
      simp [legacyDocToMenuItem, Fns.postItemDoc, h]
  · intro s d hfresh hact
    have h1 : Norm.lookupDoc (s.baseItems ++
        [(s.nextId,
          ({ name := d.name, isActive := d.isActive != false,
             nutrition := d.nutrition,
             allergens := d.allergens.getD emptyAllergenFlags,
             servingSize := Norm.jsOrNullStr d.servingSize,
             createdAt := s.time,
             updatedAt := s.time } : Norm.BaseRec))]) s.nextId =
        some { name := d.name, isActive := d.isActive != false,
               nutrition := d.nutrition,
               allergens := d.allergens.getD emptyAllergenFlags,
               servingSize := Norm.jsOrNullStr d.servingSize,
               createdAt := s.time, updatedAt := s.time } := by
      rw [lookupDoc_append_right _ _ _ hfresh]
      simp [Norm.lookupDoc]
    simpa [Norm.createItem, hact] using h1

/-- Witness for isActive_default_semantics: a stored document whose isActive
field holds the string value yes (not a boolean) reads as active. -/
theorem isActive_default_semantics_witness :
    (legacyDocToMenuItem 7 { isActive := some (FsVal.s "yes") }).isActive
      = true :=
  (isActive_default_semantics.1 7 { isActive := some (FsVal.s "yes") }).1
    (by decide)

/-- Counterexample for C10 as stated: the GET /items/:id read path does not
report isActive = true for a stored item document whose isActive field is
missing — it echoes the raw document, whose isActive is none (neither the
boolean true nor the boolean false). -/
theorem isActive_get_echo_counterexample :
    (Fns.getItemHandler { items := [(0, ({} : ItemDocR))] } 0).2 =
      some ({} : ItemDocR) ∧
    ({} : ItemDocR).isActive = none := by
  exact ⟨rfl, rfl⟩

/-- firstSeenF does not depend on the fuel once it covers the list
length. -/
theorem firstSeenF_fuel (fuel1 : Nat) : ∀ (fuel2 : Nat) (l : List String),
    l.length ≤ fuel1 → l.length ≤ fuel2 →
    Import.firstSeenF fuel1 l = Import.firstSeenF fuel2 l := by
  induction fuel1 with
  | zero =>
    intro fuel2 l h1 h2
    rw [List.length_eq_zero.mp (Nat.le_zero.mp h1)]
    cases fuel2 <;> rfl
  | succ f ih =>
    intro fuel2 l h1 h2
    cases l with
    | nil => cases fuel2 <;> rfl
    | cons x xs =>
      cases fuel2 with
      | zero => exact absurd h2 (by simp)
      | succ f2 =>
        show x :: Import.firstSeenF f _ = x :: Import.firstSeenF f2 _
        congr 1
        exact ih f2 _
          (le_trans (List.length_filter_le _ _) (Nat.le_of_succ_le_succ h1))
          (le_trans (List.length_filter_le _ _) (Nat.le_of_succ_le_succ h2))

/-- Removing the names already in acc plus one more name filters in two
steps. -/
theorem filter_contains_append (acc : List String) (x : String)
    (xs : List String) :
    xs.filter (fun y => !((acc ++ [x]).contains y)) =
      (xs.filter (fun y => !(acc.contains y))).filter (fun y => !(y == x)) := by
  rw [List.filter_filter]
  apply List.filter_congr
  intro y _
  show (!((acc ++ [x]).elem y)) = (!(y == x) && !(acc.elem y))
  rw [show (acc ++ [x]).elem y = (acc.elem y || [x].elem y) by
    simp [List.elem_eq_mem]]
  rw [show ([x].elem y) = (y == x) from by simp [List.elem_eq_mem]; rfl]
  rw [Bool.not_or, Bool.and_comm]

/-- The fold implementing Set-spread de-duplication, generalized over the
accumulator: it appends exactly the first-seen fresh names. -/
theorem dedup_go (fuel : Nat) : ∀ (l : List String) (acc : List String),
    l.length ≤ fuel →
    l.foldl (fun acc x => if acc.contains x then acc else acc ++ [x]) acc =
      acc ++ Import.firstSeenF fuel
        (l.filter (fun x => !(acc.contains x))) := by
  induction fuel with
  | zero =>
    intro l acc h
    rw [List.length_eq_zero.mp (Nat.le_zero.mp h)]
    simp [Import.firstSeenF]
  | succ fuel ih =>
    intro l acc h
    cases l with
    | nil => simp [Import.firstSeenF]
    | cons x xs =>
      have hlen : xs.length ≤ fuel := Nat.le_of_succ_le_succ h
      by_cases hx : acc.contains x
      · have hxm : x ∈ acc := by simpa using hx
        have hfc : (x :: xs).filter (fun y => !(acc.contains y)) =
            xs.filter (fun y => !(acc.contains y)) := by
          simp [List.filter_cons, hxm]
        rw [List.foldl_cons, if_pos hx, ih xs acc hlen, hfc]
        congr 1
        exact firstSeenF_fuel fuel (fuel + 1) _
          (le_trans (List.length_filter_le _ _) hlen)
          (le_trans (List.length_filter_le _ _) (Nat.le_succ_of_le hlen))
      · have hxm : x ∉ acc := by simpa using hx
        have hfc : (x :: xs).filter (fun y => !(acc.contains y)) =
            x :: xs.filter (fun y => !(acc.contains y)) := by
          simp [List.filter_cons, hxm]
        rw [List.foldl_cons, if_neg hx, ih xs (acc ++ [x]) hlen, hfc]
        rw [show Import.firstSeenF (fuel + 1)
            (x :: xs.filter (fun y => !(acc.contains y))) =
          x :: Import.firstSeenF fuel
            ((xs.filter (fun y => !(acc.contains y))).filter
              (fun y => !(y == x))) from rfl]
        rw [← filter_contains_append, List.append_assoc]
        rfl

/-- dedupFirstSeen computes exactly the first-seen distinct sublist. -/
theorem dedupFirstSeen_eq_firstSeen (l : List String) :
    Import.dedupFirstSeen l = Import.firstSeen l := by
  unfold Import.dedupFirstSeen Import.firstSeen
  rw [dedup_go l.length l [] (Nat.le_refl _)]
  simp

/-- Characterization of the category-resolution loop over the pre-import
snapshot: the store only grows by the created categories; the created
categories are exactly the names without a case-insensitive match, in order,
with displayOrder existingCount + createdSoFar + 1; and the recorded map
sends every matched name to the matched existing id and every unmatched name
to the id of a category (created) whose name it is. -/
theorem resolveLoop_spec (existing : List (String × Norm.CatRec)) :
    ∀ (names : List String) (s0 : Norm.NStore) (m0 : List (String × String))
      (n : Nat),
    (∃ suffix, (Import.resolveLoop existing names s0 m0 n).1.categories =
      s0.categories ++ suffix) ∧
    ((Import.resolveLoop existing names s0 m0 n).1.categories.drop
        s0.categories.length).map (fun p => p.2.name) =
      names.filter
        (fun nm => (Import.lastByLowerName existing (strLower nm)).isNone) ∧
    ((Import.resolveLoop existing names s0 m0 n).1.categories.drop
        s0.categories.length).map (fun p => p.2.displayOrder) =
      (List.range (names.filter (fun nm =>
          (Import.lastByLowerName existing (strLower nm)).isNone)).length).map
        (fun i => ((existing.length + n + i + 1 : Nat) : Int)) ∧
    (∃ mN, (Import.resolveLoop existing names s0 m0 n).2.1 = m0 ++ mN ∧
      mN.map (fun q => q.1) = names ∧
      ∀ q ∈ mN,
        (∀ c, Import.lastByLowerName existing (strLower q.1) = some c →
          q.2 = c.1) ∧
        (Import.lastByLowerName existing (strLower q.1) = none →
          ∃ p, p ∈ (Import.resolveLoop existing names s0 m0 n).1.categories ∧
            p.2.name = q.1 ∧ q.2 = p.1)) := by
  intro names
  induction names with
  | nil =>
    intro s0 m0 n
    refine ⟨⟨[], by simp [Import.resolveLoop]⟩, ?_, ?_,
      ⟨[], by simp [Import.resolveLoop], rfl, by simp⟩⟩
    · simp [Import.resolveLoop, List.drop_length]
    · simp [Import.resolveLoop, List.drop_length]
  | cons nm rest ih =>
    intro s0 m0 n
    cases hmatch : Import.lastByLowerName existing (strLower nm) with
    | some c =>
      have hred : Import.resolveLoop existing (nm :: rest) s0 m0 n =
          Import.resolveLoop existing rest s0 (m0 ++ [(nm, c.1)]) n := by
        rw [Import.resolveLoop, hmatch]
      obtain ⟨⟨suf, hsuf⟩, hnames, hord, ⟨mN, hm, hmfst, hment⟩⟩ :=
        ih s0 (m0 ++ [(nm, c.1)]) n
      rw [hred]
      refine ⟨⟨suf, hsuf⟩, ?_, ?_, ⟨(nm, c.1) :: mN, ?_, ?_, ?_⟩⟩
      · rw [hnames]
        simp [List.filter_cons, hmatch]
      · rw [hord]
        simp [List.filter_cons, hmatch]
      · rw [hm, List.append_assoc]
        rfl
      · simp [hmfst]
      · intro q hq
        rcases List.mem_cons.mp hq with hq1 | hq2
        · subst hq1
          constructor
          · intro c2 hc2
            rw [hmatch] at hc2
            cases Option.some.inj hc2
            rfl
          · intro hc2
            rw [hmatch] at hc2
            cases hc2
        · exact hment q hq2
    | none =>
      have hred : Import.resolveLoop existing (nm :: rest) s0 m0 n =
          Import.resolveLoop existing rest
            { s0 with
              categories := s0.categories ++
                [(toString s0.nextId,
                  { name := nm, slug := generateSlug nm,
                    description := none,
                    displayOrder := ((existing.length : Int) + (n : Int) + 1),
                    isActive := true, itemCount := 0,
                    createdAt := s0.time, updatedAt := s0.time })]
              nextId := s0.nextId + 1 }
            (m0 ++ [(nm, toString s0.nextId)]) (n + 1) := by
        rw [Import.resolveLoop, hmatch]
        rfl
      obtain ⟨⟨suf, hsuf⟩, hnames, hord, ⟨mN, hm, hmfst, hment⟩⟩ :=
        ih { s0 with
              categories := s0.categories ++
                [(toString s0.nextId,
                  { name := nm, slug := generateSlug nm,
                    description := none,
                    displayOrder := ((existing.length : Int) + (n : Int) + 1),
                    isActive := true, itemCount := 0,
                    createdAt := s0.time, updatedAt := s0.time })]
              nextId := s0.nextId + 1 }
            (m0 ++ [(nm, toString s0.nextId)]) (n + 1)
      rw [hred]
      have hfinal : (Import.resolveLoop existing rest
          { s0 with
            categories := s0.categories ++
              [(toString s0.nextId,
                { name := nm, slug := generateSlug nm,
                  description := none,
                  displayOrder := ((existing.length : Int) + (n : Int) + 1),
                  isActive := true, itemCount := 0,
                  createdAt := s0.time, updatedAt := s0.time })]
            nextId := s0.nextId + 1 }
          (m0 ++ [(nm, toString s0.nextId)]) (n + 1)).1.categories =
          s0.categories ++
            ((toString s0.nextId,
              ({ name := nm, slug := generateSlug nm,
                 description := none,
                 displayOrder := ((existing.length : Int) + (n : Int) + 1),
                 isActive := true, itemCount := 0,
                 createdAt := s0.time,
                 updatedAt := s0.time } : Norm.CatRec)) :: suf) := by
        rw [hsuf]
        simp
      have hcreated : ((Import.resolveLoop existing rest
          { s0 with
            categories := s0.categories ++
              [(toString s0.nextId,
                { name := nm, slug := generateSlug nm,
                  description := none,
                  displayOrder := ((existing.length : Int) + (n : Int) + 1),
                  isActive := true, itemCount := 0,
                  createdAt := s0.time, updatedAt := s0.time })]
            nextId := s0.nextId + 1 }
          (m0 ++ [(nm, toString s0.nextId)]) (n + 1)).1.categories.drop
            s0.categories.length) =
          (toString s0.nextId,
            ({ name := nm, slug := generateSlug nm,
               description := none,
               displayOrder := ((existing.length : Int) + (n : Int) + 1),
               isActive := true, itemCount := 0,
               createdAt := s0.time,
               updatedAt := s0.time } : Norm.CatRec)) :: suf := by
        rw [hfinal]
        exact List.drop_left _ _
      have hsufdrop : ((Import.resolveLoop existing rest
          { s0 with
            categories := s0.categories ++
              [(toString s0.nextId,
                { name := nm, slug := generateSlug nm,
                  description := none,
                  displayOrder := ((existing.length : Int) + (n : Int) + 1),
                  isActive := true, itemCount := 0,
                  createdAt := s0.time, updatedAt := s0.time })]
            nextId := s0.nextId + 1 }
          (m0 ++ [(nm, toString s0.nextId)]) (n + 1)).1.categories.drop
            (s0.categories ++
              [(toString s0.nextId,
                ({ name := nm, slug := generateSlug nm,
                   description := none,
                   displayOrder := ((existing.length : Int) + (n : Int) + 1),
                   isActive := true, itemCount := 0,
                   createdAt := s0.time,
                   updatedAt := s0.time } : Norm.CatRec))]).length) = suf := by
        rw [hsuf]
        exact List.drop_left _ _
      rw [hsufdrop] at hnames hord
      refine ⟨?_, ?_, ?_, ⟨(nm, toString s0.nextId) :: mN, ?_, ?_, ?_⟩⟩
      · exact ⟨_, hfinal⟩
      · rw [hcreated]
        simp only [List.map_cons, hnames]
        simp [List.filter_cons, hmatch]
      · rw [hcreated]
        simp only [List.map_cons, hord]
        rw [show ((nm :: rest).filter (fun nm2 =>
            (Import.lastByLowerName existing (strLower nm2)).isNone)) =
          nm :: rest.filter (fun nm2 =>
            (Import.lastByLowerName existing (strLower nm2)).isNone) from by
          simp [List.filter_cons, hmatch]]
        rw [List.length_cons, List.range_succ_eq_map, List.map_cons,
          List.map_map]
        congr 1
        apply List.map_congr_left
        intro i _
        show ((existing.length + (n + 1) + i + 1 : Nat) : Int) =
          ((existing.length + n + (i + 1) + 1 : Nat) : Int)
        congr 1
        omega
      · rw [hm, List.append_assoc]
        rfl
      · simp [hmfst]
      · intro q hq
        rcases List.mem_cons.mp hq with hq1 | hq2
        · subst hq1
          constructor
          · intro c2 hc2
            rw [hmatch] at hc2
            cases hc2
          · intro _
            refine ⟨(toString s0.nextId,
              ({ name := nm, slug := generateSlug nm,
                 description := none,
                 displayOrder := ((existing.length : Int) + (n : Int) + 1),
                 isActive := true, itemCount := 0,
                 createdAt := s0.time,
                 updatedAt := s0.time } : Norm.CatRec)), ?_, rfl, rfl⟩
            rw [hfinal]
            exact List.mem_append.mpr (Or.inr (List.mem_cons_self _ _))
        · exact hment q hq2

/-- One bulk-creation step never touches the category collection. -/
theorem bulkStep_categories
    (acc : Norm.NStore × List ((String × List Int) × Nat) × List Nat)
    (item : Norm.MenuItemFormData) :
    (Norm.bulkStep acc item).1.categories = acc.1.categories := by
  cases h : acc.2.1.find? (fun p => p.1 == Norm.bulkKey item) with
  | none =>
    simp only [Norm.bulkStep, h]
  | some p =>
    simp only [Norm.bulkStep, h]

/-- Folding bulk-creation steps never touches the category collection. -/
theorem foldl_bulkStep_categories (l : List Norm.MenuItemFormData) :
    ∀ acc : Norm.NStore × List ((String × List Int) × Nat) × List Nat,
    (l.foldl Norm.bulkStep acc).1.categories = acc.1.categories := by
  induction l with
  | nil => intro acc; rfl
  | cons x xs ih =>
    intro acc
    rw [List.foldl_cons, ih, bulkStep_categories]

/-- The chunked write loop of bulkCreateItems never touches the category
collection. -/
theorem bulkLoop_categories (fuel : Nat) :
    ∀ (items : List Norm.MenuItemFormData) (s : Norm.NStore)
      (seen : List ((String × List Int) × Nat)) (ids : List Nat),
    (Norm.bulkLoop fuel items s seen ids).1.categories = s.categories := by
  induction fuel with
  | zero =>
    intro items s seen ids
    cases items <;> rfl
  | succ fuel ih =>
    intro items s seen ids
    cases items with
    | nil => rfl
    | cons it its =>
      rw [Norm.bulkLoop]
      rw [ih, foldl_bulkStep_categories]

/-- The import item phase (chunks of 50 rows, one bulkCreateItems call each)
never touches the category collection. -/
theorem importChunksF_categories (fuel : Nat) :
    ∀ (items : List Norm.MenuItemFormData) (s : Norm.NStore),
    (Import.importChunksF fuel items s).categories = s.categories := by
  induction fuel with
  | zero =>
    intro items s
    cases items <;> rfl
  | succ fuel ih =>
    intro items s
    cases items with
    | nil => rfl
    | cons it its =>
      rw [Import.importChunksF, ih, Norm.bulkCreateItems, bulkLoop_categories]

/-- C7 counterexample: an import file whose object form carries an explicit
categories array is used as given, without first-seen de-duplication, so the
duplicate name "A" produces two lookups against the pre-import snapshot (both
misses over an empty store) and hence two created categories named "A" —
refuting the claim that every bulk import resolves the distinct first-seen
category names and creates at most one category per missing name. -/
theorem importer_category_resolution_counterexample :
    Import.parseCategories (Import.ImportJson.obj (some ["A", "A"]) []) =
      ["A", "A"] ∧
    Import.firstSeen ["A", "A"] = ["A"] ∧
    (((Import.handleNutritionImport {}
        (Import.ImportJson.obj (some ["A", "A"]) [])).categories.filter
      (fun p => p.2.name == "A")).length = 2) := by
  refine ⟨rfl, rfl, ?_⟩
  decide

/-- C7: importer category resolution.  For every bulk import whose input is a
bare row array or an object without an explicit categories field, the importer
computes the distinct category names of the input preserving first-seen
order; the import leaves the pre-existing categories in place and appends the
created ones; the created categories are exactly the parsed names with no
case-insensitive match in the pre-import snapshot, in order, the i-th created
one having displayOrder = pre-import category count + i + 1 (count so far
plus one); and the recorded name-to-id map lists every parsed name in order,
mapping a matched name to the existing category's id and an unmatched name to
the id of a created category bearing that name.  (An explicit categories
field is used as given, without de-duplication — see the counterexample.) -/
theorem importer_category_resolution (s : Norm.NStore)
    (data : Import.ImportJson) (rows : List Import.Row)
    (hdata : data = Import.ImportJson.arr rows ∨
      data = Import.ImportJson.obj none rows) :
    Import.parseCategories data =
      Import.firstSeen (rows.map (fun r => r.category)) ∧
    (∃ created,
      (Import.handleNutritionImport s data).categories =
        s.categories ++ created ∧
      created.map (fun p => p.2.name) =
        (Import.parseCategories data).filter
          (fun nm => (Import.lastByLowerName s.categories (strLower nm)).isNone) ∧
      created.map (fun p => p.2.displayOrder) =
        (List.range created.length).map
          (fun i => ((s.categories.length + i + 1 : Nat) : Int))) ∧
    ((Import.resolveLoop s.categories (Import.parseCategories data) s []
        0).2.1.map (fun q => q.1) = Import.parseCategories data) ∧
    (∀ q ∈ (Import.resolveLoop s.categories (Import.parseCategories data) s []
        0).2.1,
      (∀ c, Import.lastByLowerName s.categories (strLower q.1) = some c →
        q.2 = c.1) ∧
      (Import.lastByLowerName s.categories (strLower q.1) = none →
        ∃ p, p ∈ (Import.handleNutritionImport s data).categories ∧
          p.2.name = q.1 ∧ q.2 = p.1)) := by
  have hparse : Import.parseCategories data =
      Import.firstSeen (rows.map (fun r => r.category)) := by
    rcases hdata with h | h <;> subst h <;>
      exact dedupFirstSeen_eq_firstSeen _
  obtain ⟨⟨suffix, hsuf⟩, hnames, hord, ⟨mN, hm, hmfst, hment⟩⟩ :=
    resolveLoop_spec s.categories (Import.parseCategories data) s [] 0
  have hcats : (Import.handleNutritionImport s data).categories =
      (Import.resolveLoop s.categories (Import.parseCategories data) s []
        0).1.categories := by
    rw [Import.handleNutritionImport]
    rw [Import.importChunks, importChunksF_categories]
  have hdrop : ((Import.resolveLoop s.categories (Import.parseCategories data)
      s [] 0).1.categories.drop s.categories.length) = suffix := by
    rw [hsuf]
    exact List.drop_left _ _
  rw [hdrop] at hnames hord
  refine ⟨hparse, ⟨suffix, ?_, hnames, ?_⟩, ?_, ?_⟩
  · rw [hcats, hsuf]
  · have hlen : suffix.length =
        ((Import.parseCategories data).filter (fun nm =>
          (Import.lastByLowerName s.categories (strLower nm)).isNone)).length := by
      rw [← hnames, List.length_map]
    rw [hord, ← hlen]
    apply List.map_congr_left
    intro i _
    rfl
  · rw [hm]
    simpa using hmfst
  · intro q hq
    rw [hm] at hq
    simp only [List.nil_append] at hq
    refine ⟨(hment q (by simpa using hq)).1, fun hnone => ?_⟩
    obtain ⟨p, hp, hpn, hpi⟩ := (hment q (by simpa using hq)).2 hnone
    exact ⟨p, by rw [hcats]; exact hp, hpn, hpi⟩

/-- Witness for importer_category_resolution: a one-row bare-array import
parses the single distinct category name. -/
theorem importer_category_resolution_witness :
    Import.parseCategories (Import.ImportJson.arr
      [{ name := "x", category := "A", nutrition := fun _ => none }]) =
      Import.firstSeen
        ([({ name := "x", category := "A",
             nutrition := fun _ => none } : Import.Row)].map
          (fun r => r.category)) :=
  (importer_category_resolution {} _
    [{ name := "x", category := "A", nutrition := fun _ => none }]
    (Or.inl rfl)).1

/-- Migration shape lemma: over documents whose fingerprints are pairwise
distinct and unseen, every document takes the create branch, so the loop
appends one base item and one assignment row per document (ids interleaved),
touches nothing else, and advances the id counter by two per document. -/
theorem migrateLoop_shape (docs : List (Nat × ItemDocR)) :
    ∀ (seen : List ((String × List Int) × Nat)) (s : Norm.NStore),
    (docs.map (fun p => Norm.migKey p.2)).Nodup →
    (∀ q ∈ seen, ∀ p ∈ docs, q.1 ≠ Norm.migKey p.2) →
    Norm.migrateLoop docs seen s =
      { s with
        baseItems := s.baseItems ++ migShapeB docs s.nextId s.time
        assignments := s.assignments ++ migShapeA docs s.nextId
        nextId := s.nextId + 2 * docs.length } := by
  induction docs with
  | nil =>
    intro seen s _ _
    simp [Norm.migrateLoop, migShapeB, migShapeA]
  | cons x ds ih =>
    obtain ⟨i, d⟩ := x
    intro seen s hnodup hseen
    rw [List.map_cons] at hnodup
    have hk := List.nodup_cons.mp hnodup
    have hfind : seen.find? (fun p => p.1 == Norm.migKey d) = none := by
      apply List.find?_eq_none.mpr
      intro q hq
      simpa using hseen q hq (i, d) (List.mem_cons_self _ _)
    have hseen2 : ∀ q ∈ (Norm.migKey d, s.nextId) :: seen, ∀ p ∈ ds,
        q.1 ≠ Norm.migKey p.2 := by
      intro q hq p hp
      rcases List.mem_cons.mp hq with hq1 | hq2
      · subst hq1
        intro hcontra
        apply hk.1
        rw [show Norm.migKey (i, d).2 = Norm.migKey p.2 from hcontra]
        exact List.mem_map_of_mem _ hp
      · exact hseen q hq2 p (List.mem_cons_of_mem _ hp)
    rw [Norm.migrateLoop, hfind]
    simp only []
    rw [ih ((Norm.migKey d, s.nextId) :: seen) _ hk.2 hseen2]
    simp only [migShapeB, migShapeA, List.length_cons, List.append_assoc,
      List.singleton_append]
    congr 1
    omega

/-- Every base-item id produced by the migration shape is at least the
starting id. -/
theorem migShapeB_id_ge (docs : List (Nat × ItemDocR)) :
    ∀ (n t : Nat) (p : Nat × Norm.BaseRec), p ∈ migShapeB docs n t →
      n ≤ p.1 := by
  induction docs with
  | nil =>
    intro n t p hp
    simp [migShapeB] at hp
  | cons x ds ih =>
    obtain ⟨i, d⟩ := x
    intro n t p hp
    rcases List.mem_cons.mp hp with hp1 | hp2
    · subst hp1
      exact le_refl n
    · exact le_trans (by omega) (ih (n + 2) t p hp2)

/-- buildViews on a cons of base items. -/
theorem buildViews_cons (cats : List (String × Norm.CatRec))
    (assigns : List (Nat × Norm.AssignRec)) (b : Nat × Norm.BaseRec)
    (bs : List (Nat × Norm.BaseRec)) :
    Norm.buildViews cats assigns (b :: bs) =
      (match assigns.find? (fun a => a.2.itemId == b.1) with
       | some a => Norm.baseItemToMenuItem b.1 b.2 a.2.categoryId
           (Norm.catNameOf cats a.2.categoryId)
       | none => Norm.baseItemToMenuItem b.1 b.2 "" "Uncategorized") ::
      Norm.buildViews cats assigns bs := rfl

/-- An assignment row whose itemId matches none of the base items is
transparent to buildViews. -/
theorem buildViews_skip (cats : List (String × Norm.CatRec))
    (a0 : Nat × Norm.AssignRec) (assigns : List (Nat × Norm.AssignRec))
    (bs : List (Nat × Norm.BaseRec))
    (h : ∀ p ∈ bs, a0.2.itemId ≠ p.1) :
    Norm.buildViews cats (a0 :: assigns) bs =
      Norm.buildViews cats assigns bs := by
  unfold Norm.buildViews
  apply List.map_congr_left
  intro p hp
  rw [List.find?_cons_of_neg _ (by simpa using h p hp)]

/-- The views built from a migration-shaped store project, document by
document, to the legacy document's logical fields with the category name
resolved through the category collection. -/
theorem buildViews_shape (cats : List (String × Norm.CatRec))
    (docs : List (Nat × ItemDocR)) :
    ∀ (n t : Nat),
    (Norm.buildViews cats (migShapeA docs n) (migShapeB docs n t)).map
        logicalFields =
      docs.map (fun q =>
        (q.2.name.getD "", q.2.categoryId.getD "",
         Norm.catNameOf cats (q.2.categoryId.getD ""),
         q.2.isActive != some (FsVal.b false),
         readNutrition q.2, extractAllergens q.2)) := by
  induction docs with
  | nil =>
    intro n t
    rfl
  | cons x ds ih =>
    obtain ⟨i, d⟩ := x
    intro n t
    show ((Norm.buildViews cats
        ((n + 1, (⟨n, d.categoryId.getD ""⟩ : Norm.AssignRec)) ::
          migShapeA ds (n + 2))
        ((n, Norm.migBase d t) :: migShapeB ds (n + 2) t)).map
      logicalFields) = _
    rw [buildViews_cons]
    rw [List.find?_cons_of_pos _ (by simp)]
    rw [buildViews_skip cats _ _ _ (fun p hp => by
      have := migShapeB_id_ge ds (n + 2) t p hp
      show n ≠ p.1
      omega)]
    rw [List.map_cons, ih (n + 2) t]
    rfl

/-- C5: schema fallback equivalence.  Over a store holding only legacy flat
item documents (empty base-item and assignment collections) whose
name-ordered query has pairwise distinct migration fingerprints and whose
denormalized category names agree with the category collection, getItems
returns the same logical fields (name, category id, category name, active
flag, nutrition, allergens), item for item, after migrating to the
normalized schema as before; and whenever the base-item collection is
non-empty, the whole call is the normalized path (first assignment per item,
Uncategorized when none) and ignores the legacy collection entirely — the
two paths are never mixed per item. -/
theorem schema_fallback_equivalence (s : Norm.NStore)
    (hbase : s.baseItems = []) (hassign : s.assignments = [])
    (hkeys : ((Norm.legacyQueryByName s.legacyItems).map
      (fun p => Norm.migKey p.2)).Nodup)
    (hcat : ∀ p ∈ Norm.legacyQueryByName s.legacyItems,
      Norm.catNameOf s.categories (p.2.categoryId.getD "") =
        p.2.categoryName.getD "") :
    (Norm.getItems (Norm.migrateFromLegacyItems s)).map logicalFields =
      (Norm.getItems s).map logicalFields ∧
    (∀ t : Norm.NStore, t.baseItems ≠ [] →
      Norm.getItems t =
        Norm.buildViews t.categories t.assignments t.baseItems) ∧
    (∀ (t : Norm.NStore) (l : List (Nat × ItemDocR)), t.baseItems ≠ [] →
      Norm.getItems { t with legacyItems := l } = Norm.getItems t) := by
  have hpath : ∀ t : Norm.NStore, t.baseItems ≠ [] →
      Norm.getItems t =
        Norm.buildViews t.categories t.assignments t.baseItems := by
    intro t ht
    rw [Norm.getItems, if_neg]
    simpa [List.isEmpty_iff] using ht
  refine ⟨?_, hpath, ?_⟩
  · cases hdocs : Norm.legacyQueryByName s.legacyItems with
    | nil =>
      have hmig : Norm.migrateFromLegacyItems s = s := by
        rw [Norm.migrateFromLegacyItems, hdocs]
        rfl
      rw [hmig]
    | cons x ds =>
      have hmig : Norm.migrateFromLegacyItems s =
          { s with
            baseItems := s.baseItems ++
              migShapeB (Norm.legacyQueryByName s.legacyItems) s.nextId s.time
            assignments := s.assignments ++
              migShapeA (Norm.legacyQueryByName s.legacyItems) s.nextId
            nextId := s.nextId +
              2 * (Norm.legacyQueryByName s.legacyItems).length } := by
        rw [Norm.migrateFromLegacyItems]
        exact migrateLoop_shape _ [] s hkeys
          (fun q hq => absurd hq (List.not_mem_nil q))
      have hne : (Norm.migrateFromLegacyItems s).baseItems ≠ [] := by
        rw [hmig]
        show s.baseItems ++
          migShapeB (Norm.legacyQueryByName s.legacyItems) s.nextId s.time ≠ []
        rw [hdocs]
        obtain ⟨i, d⟩ := x
        simp [migShapeB]
      rw [hpath _ hne, hmig]
      simp only []
      rw [hbase, hassign, List.nil_append, List.nil_append]
      rw [buildViews_shape]
      rw [Norm.getItems, if_pos (by rw [hbase]; rfl), List.map_map]
      apply List.map_congr_left
      intro q hq
      show (q.2.name.getD "", q.2.categoryId.getD "",
        Norm.catNameOf s.categories (q.2.categoryId.getD ""),
        q.2.isActive != some (FsVal.b false),
        readNutrition q.2, extractAllergens q.2) = _
      rw [hcat q hq]
      rfl
  · intro t l ht
    rw [hpath { t with legacyItems := l } ht, hpath t ht]

/-- Witness for schema_fallback_equivalence: over a store with one legacy
item carrying no category fields, the migrated and the legacy read agree. -/
theorem schema_fallback_equivalence_witness :
    (Norm.getItems (Norm.migrateFromLegacyItems
        { legacyItems := [(0, { name := some "a" })] })).map logicalFields =
      (Norm.getItems
        ({ legacyItems := [(0, { name := some "a" })] } : Norm.NStore)).map
        logicalFields :=
  (schema_fallback_equivalence { legacyItems := [(0, { name := some "a" })] }
    rfl rfl (by decide) (by decide)).1
